import Mathlib

/-!
Shallow embedding of the Termsheet-Validation core
(src/backend/data_structurer.py and src/backend/validator.py, composed as in
src/backend/api.py).

External capabilities used by the source (the spaCy entity recognizer, the
dateutil and dateparser date parsers, and the fuzzywuzzy similarity score)
are modelled as injected function parameters, following section 6 of the
specification which lists them as consumed collaborator interfaces.
Python floats are modelled exactly by `PyFloat`, a scaled-integer
representation of decimal literals whose comparisons are exact rational
comparisons (see `PyFloat.toRat`); the comparisons exercised by the claims
are far from any rounding boundary, so verdicts agree with IEEE
arithmetic.  Python dicts are modelled as association lists with the
update-in-place / append-at-end semantics of insertion-ordered dicts.
-/

/-- Python `str.lower()` restricted to ASCII case mapping. -/
def pyLower (s : String) : String := (s.toList.map Char.toLower).asString

/-- The whitespace characters stripped by Python `str.strip()` (ASCII). -/
def isPyWs (c : Char) : Bool :=
  c = ' ' || c = '\t' || c = '\n' || c = '\r' || c = '\x0b' || c = '\x0c'

/-- Python `str.strip()` (whitespace trimming). -/
def pyStrip (s : String) : String :=
  (((s.toList.dropWhile isPyWs).reverse.dropWhile isPyWs).reverse).asString

/-- Replace every underscore by a space, as the normalizer does to display keys. -/
def underscoreToSpace (s : String) : String :=
  (s.toList.map (fun c => if c = '_' then ' ' else c)).asString

/-- Replace every space by an underscore, as the line heuristic does to matched terms. -/
def spaceToUnderscore (s : String) : String :=
  (s.toList.map (fun c => if c = ' ' then '_' else c)).asString

/-- Python `str.title()`: a cased character starting an alphabetic run is
uppercased, every other cased character is lowercased (ASCII model). -/
def pyTitleGo : List Char → Bool → List Char
  | [], _ => []
  | c :: cs, prevAlpha =>
    let c2 := if c.isAlpha then (if prevAlpha then c.toLower else c.toUpper) else c
    c2 :: pyTitleGo cs c.isAlpha

def pyTitle (s : String) : String := (pyTitleGo s.toList false).asString

/-- Substring containment test, Python `needle in hay`. -/
def isSubstr (needle : List Char) : List Char → Bool
  | [] => needle.isEmpty
  | c :: t => needle.isPrefixOf (c :: t) || isSubstr needle t

def strContainsSub (hay needle : String) : Bool :=
  isSubstr needle.toList hay.toList

/-- Python slice `text[a:b]` on character indices. -/
def pySlice (s : String) (a b : Nat) : String :=
  ((s.toList.drop a).take (b - a)).asString

/-- Split at the first occurrence of a separator character, Python
`line.split(sep, 1)` for a one-character separator that is present. -/
def splitOnce (s : String) (c : Char) : String × String :=
  let l := s.toList
  ((l.takeWhile (fun d => d ≠ c)).asString,
   ((l.dropWhile (fun d => d ≠ c)).drop 1).asString)

/-- Python `str.split(sep)` for a one-character separator: split at every
occurrence, keeping empty pieces. -/
def splitCharGo (c : Char) : List Char → List Char → List String
  | [], acc => [acc.reverse.asString]
  | d :: rest, acc =>
    if d = c then acc.reverse.asString :: splitCharGo c rest []
    else splitCharGo c rest (d :: acc)

def splitChar (s : String) (c : Char) : List String := splitCharGo c s.toList []

/-- Python startswith, `s.startswith(pre)`. -/
def strStarts (s pre : String) : Bool := pre.toList.isPrefixOf s.toList

/-- Python slicing from index n, on character indices. -/
def strDrop (s : String) (n : Nat) : String := (s.toList.drop n).asString

/-- Python slicing up to index n, on character indices. -/
def strTake (s : String) (n : Nat) : String := (s.toList.take n).asString

/-- Keep only decimal digits and the decimal point: the effect of the
comma removal followed by the regex substitution deleting every character
outside digits and dot in the numeric validator. -/
def stripChars (cs : List Char) : List Char :=
  cs.filter (fun c => c.isDigit || c = '.')

def numericStrip (s : String) : String := (stripChars s.toList).asString

/-- Remove percent, currency and comma characters: the effect of the
regex substitution used by type determination. -/
def typeStrip (s : String) : String :=
  (s.toList.filter (fun c =>
    !(c = '%' || c = '$' || c = '£' || c = '€' || c = ','))).asString

/-- Numeric value of a digit list, most significant first. -/
def digitsToNat (ds : List Char) : Nat :=
  ds.foldl (fun a c => a * 10 + (c.toNat - 48)) 0

/-- Exact value of a Python float literal: `mant / 10^scale * 10^ex`.
Integer arithmetic on this representation kernel-reduces, unlike rational
arithmetic; `toRat` gives its mathematical value. -/
structure PyFloat where
  mant : Int
  scale : Nat
  ex : Int
deriving DecidableEq, Repr

/-- The rational value represented. -/
def PyFloat.toRat (a : PyFloat) : ℚ :=
  (a.mant : ℚ) * (10 : ℚ) ^ (a.ex - (a.scale : Int))

/-- The exponent of the unit in the last place, `ex - scale`. -/
def PyFloat.keyExp (a : PyFloat) : Int := a.ex - (a.scale : Int)

/-- Mantissas of two values brought to the common exponent
`min keyExp keyExp`. -/
def PyFloat.scaledPair (a b : PyFloat) : Int × Int :=
  if a.keyExp ≤ b.keyExp then (a.mant, b.mant * 10 ^ (b.keyExp - a.keyExp).toNat)
  else (a.mant * 10 ^ (a.keyExp - b.keyExp).toNat, b.mant)

/-- Value order, used for the float comparisons of the validator. -/
def PyFloat.ble (a b : PyFloat) : Bool :=
  decide ((PyFloat.scaledPair a b).1 ≤ (PyFloat.scaledPair a b).2)

def PyFloat.fabs (a : PyFloat) : PyFloat := ⟨|a.mant|, a.scale, a.ex⟩

/-- Multiplication by `10^k`. -/
def PyFloat.shift (a : PyFloat) (k : Int) : PyFloat := ⟨a.mant, a.scale, a.ex + k⟩

def PyFloat.sub (a b : PyFloat) : PyFloat :=
  if a.keyExp ≤ b.keyExp then
    ⟨a.mant - b.mant * 10 ^ (b.keyExp - a.keyExp).toNat, 0, a.keyExp⟩
  else ⟨a.mant * 10 ^ (a.keyExp - b.keyExp).toNat - b.mant, 0, b.keyExp⟩

def PyFloat.add (a b : PyFloat) : PyFloat :=
  if a.keyExp ≤ b.keyExp then
    ⟨a.mant + b.mant * 10 ^ (b.keyExp - a.keyExp).toNat, 0, a.keyExp⟩
  else ⟨a.mant * 10 ^ (a.keyExp - b.keyExp).toNat + b.mant, 0, b.keyExp⟩

/-- Parse an optional exponent suffix of a Python float literal; `[]` means
no exponent.  Returns `none` when trailing garbage remains. -/
def parseExpSuffix : List Char → Option Int
  | [] => some 0
  | c :: rest =>
    if c = 'e' || c = 'E' then
      match rest with
      | '+' :: ds => if ds ≠ [] && ds.all Char.isDigit then some (digitsToNat ds) else none
      | '-' :: ds => if ds ≠ [] && ds.all Char.isDigit then some (-(digitsToNat ds : Int)) else none
      | ds => if ds ≠ [] && ds.all Char.isDigit then some (digitsToNat ds) else none
    else none

/-- Mantissa and exponent of a Python float literal (no sign):
`ip.fp e exp` becomes `(ip*10^|fp| + fp) / 10^|fp| * 10^exp`. -/
def parseUnsignedFloat (cs : List Char) : Option PyFloat :=
  let ip := cs.takeWhile Char.isDigit
  let r1 := cs.dropWhile Char.isDigit
  match r1 with
  | '.' :: r2 =>
    let fp := r2.takeWhile Char.isDigit
    let r3 := r2.dropWhile Char.isDigit
    if ip = [] && fp = [] then none
    else
      (parseExpSuffix r3).map (fun e =>
        ⟨(digitsToNat ip * 10 ^ fp.length + digitsToNat fp : Nat), fp.length, e⟩)
  | r =>
    if ip = [] then none
    else (parseExpSuffix r).map (fun e => ⟨(digitsToNat ip : Nat), 0, e⟩)

/-- Model of Python `float(s)` (leading/trailing whitespace, optional sign,
digits with at most one decimal point, optional exponent; the exotic
`inf`/`nan`/underscore spellings are not modelled — no claim exercises
them).  Returns the exact value of the literal. -/
def parseFloat (s : String) : Option PyFloat :=
  match (pyStrip s).toList with
  | '+' :: cs => parseUnsignedFloat cs
  | '-' :: cs => (parseUnsignedFloat cs).map (fun a => ⟨-a.mant, a.scale, a.ex⟩)
  | cs => parseUnsignedFloat cs

/-- Calendar date at day resolution, standing in for the datetimes produced
by the injected date parsers. -/
structure PyDate where
  y : Nat
  m : Nat
  d : Nat
deriving DecidableEq, Repr

/-- Lexicographic order on dates, matching datetime comparison. -/
def PyDate.ble (a b : PyDate) : Bool :=
  decide (a.y < b.y ∨ (a.y = b.y ∧ (a.m < b.m ∨ (a.m = b.m ∧ a.d ≤ b.d))))

def padNat (w n : Nat) : String :=
  let s := toString n
  (List.replicate (w - s.length) '0').asString ++ s

/-- Python strftime with the year-month-day format. -/
def formatYMD (d : PyDate) : String :=
  padNat 4 d.y ++ "-" ++ padNat 2 d.m ++ "-" ++ padNat 2 d.d

/-- The note texts produced by the validator, one constructor per f-string
in the source, carrying the interpolated payloads. -/
inductive Note where
  | noValidationRules
  | termNotFoundMaster
  | termNotFoundDoc
  | dateMatchesExpected
  | dateAfterMin (m : PyDate)
  | dateBeforeMin (m : PyDate)
  | dateBeforeMax (m : PyDate)
  | dateAfterMax (m : PyDate)
  | dateInRange (lo hi : PyDate)
  | dateOutsideRange (lo hi : PyDate)
  | dateDoesntMatch (d : PyDate) (expected : String)
  | noDateRules
  | dateValidationError
  | numberMatchesExpected
  | numberGeMin (m : PyFloat)
  | numberBelowMin (m : PyFloat)
  | numberLeMax (m : PyFloat)
  | numberAboveMax (m : PyFloat)
  | numberInRange (lo hi : PyFloat)
  | numberOutsideRange (lo hi : PyFloat)
  | numberDoesntMatch (x : PyFloat) (expected : String)
  | noNumericRules
  | numericValidationError
  | textMatchesExpected
  | textFuzzy (sim : Nat)
  | textNoMatch (sim : Nat)
  | textInAllowed
  | textNotInAllowed (allowed : List String)
  | noTextRules
deriving DecidableEq, Repr

/-- One row of the master rule table; cell values are modelled as strings,
with `none` for a NaN / absent cell. -/
structure MasterRule where
  term : String
  expectedValue : Option String
  allowedRange : Option String
deriving DecidableEq, Repr

/-- One row of the validation result DataFrame. -/
structure ValidationRecord where
  term : String
  extractedValue : String
  status : String
  expectedValue : Option String
  allowedRange : Option String
  notes : Note
deriving DecidableEq, Repr

/-- A spaCy entity: label, covered text and character offset. -/
structure SpacyEnt where
  label : String
  text : String
  start : Nat
deriving DecidableEq, Repr

/-- Insertion-ordered dict update: replace in place when the key is bound,
append otherwise. -/
def dictInsert {α : Type} : List (String × α) → String → α → List (String × α)
  | [], k, v => [(k, v)]
  | (k2, v2) :: rest, k, v =>
    if k2 = k then (k, v) :: rest else (k2, v2) :: dictInsert rest k v

/-- Dict lookup (first binding). -/
def dictGet {α : Type} : List (String × α) → String → Option α
  | [], _ => none
  | (k2, v2) :: rest, k => if k2 = k then some v2 else dictGet rest k

/-- Model of `np.isclose` with the numpy defaults `rtol=1e-5`, `atol=1e-8`:
`|a - b| <= atol + rtol * |b|`. -/
def iscloseF (a b : PyFloat) : Bool :=
  PyFloat.ble ((a.sub b).fabs) (PyFloat.add ⟨1, 0, -8⟩ ((b.fabs).shift (-5)))

/-- Embeds `TermValidator._determine_value_type`: try the dateutil parse, then a
numeric parse of the currency/percent-stripped string, else text.  The
dateutil parser is an injected capability `du`. -/
def determineValueType (du : String → Option PyDate) (s : String) : String :=
  if (du s).isSome then "date"
  else if (parseFloat (typeStrip s)).isSome then "number"
  else "text"

/-- The tail of `_validate_number` from the allowed-range check on
(source lines 180-210).  `.error` stands for a raised exception, caught by
the enclosing handler. -/
def numberRangeCheck (x : PyFloat) (allowed : Option String)
    (expected : Option String) : Except Unit (Bool × Note) :=
  let fallthrough : Except Unit (Bool × Note) :=
    match expected with
    | some ev => .ok (false, .numberDoesntMatch x ev)
    | none => .ok (true, .noNumericRules)
  match allowed with
  | none => fallthrough
  | some rs =>
    if strStarts rs "≥" then
      match parseFloat (numericStrip (strDrop rs 1)) with
      | none => .error ()
      | some m =>
        if PyFloat.ble m x then .ok (true, .numberGeMin m)
        else .ok (false, .numberBelowMin m)
    else if strStarts rs "≤" then
      match parseFloat (numericStrip (strDrop rs 1)) with
      | none => .error ()
      | some m =>
        if PyFloat.ble x m then .ok (true, .numberLeMax m)
        else .ok (false, .numberAboveMax m)
    else if strContainsSub rs "–" || strContainsSub rs "-" then
      let delim := if strContainsSub rs "–" then '–' else '-'
      match splitChar rs delim with
      | [p0, p1] =>
        match parseFloat (numericStrip p0), parseFloat (numericStrip p1) with
        | some lo, some hi =>
          if PyFloat.ble lo x && PyFloat.ble x hi then .ok (true, .numberInRange lo hi)
          else .ok (false, .numberOutsideRange lo hi)
        | _, _ => .error ()
      | _ => fallthrough
    else fallthrough

/-- Body of `_validate_number` (source lines 161-210), before the exception
handler. -/
def validateNumberBody (es : String) (expected allowed : Option String) :
    Except Unit (Bool × Note) :=
  match parseFloat (numericStrip es) with
  | none => .error ()
  | some x =>
    match expected with
    | some ev =>
      match parseFloat (numericStrip ev) with
      | none => .error ()
      | some e =>
        if iscloseF x e then .ok (true, .numberMatchesExpected)
        else numberRangeCheck x allowed expected
    | none => numberRangeCheck x allowed none

/-- Embeds `TermValidator._validate_number`: any exception in the body becomes an
Invalid verdict with an error note. -/
def validateNumber (es : String) (expected allowed : Option String) : Bool × Note :=
  match validateNumberBody es expected allowed with
  | .ok r => r
  | .error _ => (false, .numericValidationError)

/-- Date order used for the datetime comparisons. -/
def dateLe (a b : PyDate) : Bool := PyDate.ble a b

/-- Equality test of two possibly-absent parse results; Python `==` treats
`None == None` as true and `None == date` as false. -/
def optDateEq : Option PyDate → Option PyDate → Bool
  | none, none => true
  | some a, some b => decide (a = b)
  | _, _ => false

/-- The allowed-range part of `_validate_date` (source lines 123-154),
taking the already-parsed extracted date `x`: operator dispatch on the
range string, with the final expected-value and no-rules fallthrough.
`.error` stands for a raised exception, caught by the enclosing handler. -/
def dateRangeCheck (dp : String → Option PyDate) (x : Option PyDate)
    (expected allowed : Option String) : Except Unit (Bool × Note) :=
  let afterExpected : Except Unit (Bool × Note) :=
    match expected with
    | some _ =>
      match x with
      | some d => .ok (false, .dateDoesntMatch d (expected.getD ""))
      | none => .error ()
    | none => .ok (true, .noDateRules)
  match allowed with
  | none => afterExpected
  | some rs =>
    if strStarts rs "≥" then
      match x, dp (strDrop rs 1) with
      | some e, some m =>
        if dateLe m e then .ok (true, .dateAfterMin m) else .ok (false, .dateBeforeMin m)
      | _, _ => .error ()
    else if strStarts rs "≤" then
      match x, dp (strDrop rs 1) with
      | some e, some m =>
        if dateLe e m then .ok (true, .dateBeforeMax m) else .ok (false, .dateAfterMax m)
      | _, _ => .error ()
    else if strContainsSub rs "–" || strContainsSub rs "-" then
      let delim := if strContainsSub rs "–" then '–' else '-'
      match splitChar rs delim with
      | [p0, p1] =>
        match x, dp (pyStrip p0) with
        | some e, some lo =>
          if dateLe lo e then
            match dp (pyStrip p1) with
            | some hi =>
              if dateLe e hi then .ok (true, .dateInRange lo hi)
              else .ok (false, .dateOutsideRange lo hi)
            | none => .error ()
          else
            match dp (pyStrip p1) with
            | some hi => .ok (false, .dateOutsideRange lo hi)
            | none => .error ()
        | _, _ => .error ()
      | _ => afterExpected
    else afterExpected

/-- Body of `_validate_date` (source lines 116-154).  `dateparser.parse`
returns `none` on failure; comparing or formatting a `none` raises, which
the enclosing handler turns into the error verdict. -/
def validateDateBody (dp : String → Option PyDate) (es : String)
    (expected allowed : Option String) : Except Unit (Bool × Note) :=
  let x := dp es
  match expected with
  | some ev =>
    if optDateEq x (dp ev) then .ok (true, .dateMatchesExpected)
    else dateRangeCheck dp x expected allowed
  | none => dateRangeCheck dp x expected allowed

/-- Embeds `TermValidator._validate_date` with its exception handler. -/
def validateDate (dp : String → Option PyDate) (es : String)
    (expected allowed : Option String) : Bool × Note :=
  match validateDateBody dp es expected allowed with
  | .ok r => r
  | .error _ => (false, .dateValidationError)

/-- Embeds `TermValidator._validate_text` (source lines 215-243).  When an expected
value is present every path returns inside the first block, so the
allowed-range block is reached only without an expected value. -/
def validateText (simf : String → String → Nat) (es : String)
    (expected allowed : Option String) : Bool × Note :=
  match expected with
  | some ev =>
    let exS := pyStrip ev
    if pyLower es = pyLower exS then (true, .textMatchesExpected)
    else
      let sim := simf (pyLower es) (pyLower exS)
      if sim ≥ 90 then (true, .textFuzzy sim) else (false, .textNoMatch sim)
  | none =>
    match allowed with
    | some rs =>
      if strContainsSub rs "|" then
        let validValues := (splitChar rs '|').map pyStrip
        if validValues.contains es ∨ validValues.any (fun v => pyLower es = pyLower v) then
          (true, .textInAllowed)
        else (false, .textNotInAllowed validValues)
      else (true, .noTextRules)
    | none => (true, .noTextRules)

/-- Embeds `TermValidator._validate_value`: dispatch on the inferred value domain.
The dateutil parser `du`, dateparser parser `dp` and similarity score
`simf` are the injected capabilities. -/
def validateValue (du : String → Option PyDate) (dp : String → Option PyDate)
    (simf : String → String → Nat) (extractedValue : String)
    (expected allowed : Option String) : Bool × Note :=
  if expected.isNone ∧ allowed.isNone then (true, .noValidationRules)
  else
    let es := pyStrip extractedValue
    let vt := determineValueType du es
    if vt = "date" then validateDate dp es expected allowed
    else if vt = "number" then validateNumber es expected allowed
    else validateText simf es expected allowed

/-- The `master_dict` built at the top of `validate_terms`: one dict entry
per distinct term, later duplicate rows overwriting the stored rule. -/
def buildMasterDict (master : List MasterRule) :
    List (String × (Option String × Option String)) :=
  master.foldl (fun d r => dictInsert d r.term (r.expectedValue, r.allowedRange)) []

/-- The record built for one extracted term inside the first loop of
`validate_terms`: matched against the master dict, or Unknown. -/
def matchedRecord (du : String → Option PyDate) (dp : String → Option PyDate)
    (simf : String → String → Nat)
    (md : List (String × (Option String × Option String)))
    (p : String × String) : ValidationRecord :=
  match dictGet md p.1 with
  | some er =>
    let r := validateValue du dp simf p.2 er.1 er.2
    { term := p.1, extractedValue := p.2,
      status := if r.1 then "✅" else "❌",
      expectedValue := er.1, allowedRange := er.2, notes := r.2 }
  | none =>
    { term := p.1, extractedValue := p.2, status := "❓",
      expectedValue := some "N/A", allowedRange := some "N/A",
      notes := Note.termNotFoundMaster }

/-- The synthesized record of the second loop of `validate_terms` for a
master term absent from the extracted mapping. -/
def missingRecord (q : String × (Option String × Option String)) :
    ValidationRecord :=
  { term := q.1, extractedValue := "Missing", status := "❌",
    expectedValue := q.2.1, allowedRange := q.2.2,
    notes := Note.termNotFoundDoc }

/-- Embeds `TermValidator.validate_terms`: one record per extracted term (matched
against the master dict, or Unknown), followed by one Missing record per
master term absent from the extracted mapping, in master-dict order. -/
def validateTerms (du : String → Option PyDate) (dp : String → Option PyDate)
    (simf : String → String → Nat) (extracted : List (String × String))
    (master : List MasterRule) : List ValidationRecord :=
  let md := buildMasterDict master
  extracted.map (matchedRecord du dp simf md) ++
    ((md.filter (fun q => !(extracted.any (fun p => decide (p.1 = q.1))))).map
      missingRecord)

/-- The fixed financial-term vocabulary of the structurer. -/
def financialTerms : List String :=
  ["interest rate", "maturity date", "principal", "coupon",
   "governing law", "counterparty", "collateral", "amortization",
   "default rate", "prepayment penalty", "term", "closing date",
   "loan amount", "borrower", "lender", "facility", "commitment",
   "pricing", "margin", "fee", "documentation", "security", "covenant",
   "debt", "equity", "currency", "payment date", "repayment", "default"]

/-- The labels of the regex pattern table, in definition order. -/
def patternKeys : List String :=
  ["interest_rate", "maturity_date", "principal", "counterparty",
   "governing_law", "loan_amount", "borrower", "lender"]

/-- Pattern stage of `structure_data`: for each labelled pattern, all
matches are scanned but a label is written only while absent, so the first
captured group wins per key.  The regex engine is injected as `rm`, giving
the captured groups of a named pattern on a text, in match order. -/
def patWriteKey (gs : List String) (key : String)
    (d : List (String × String)) : List (String × String) :=
  gs.foldl (fun d g =>
    if (dictGet d key).isSome then d else dictInsert d key (pyStrip g)) d

def patternStage (rm : String → String → List String) (text : String)
    (d : List (String × String)) : List (String × String) :=
  patternKeys.foldl (fun d key => patWriteKey (rm key text) key d) d

/-- The preceding-context keyword test of the entity fallback stage:
`any(kw in text[max(0, start-back):start].lower() for kw in kws)`. -/
def contextHas (text : String) (s back : Nat) (kws : List String) : Bool :=
  kws.any (fun k => strContainsSub (pyLower (pySlice text (s - back) s)) k)

/-- Entity fallback stage of `structure_data` (source lines 57-92): four
blocks, each writing its label only when absent; each block stops at the
first qualifying entity. -/
def entDateBlock (ents : List SpacyEnt) (dp : String → Option PyDate)
    (text : String) (d : List (String × String)) : List (String × String) :=
  if (dictGet d "maturity_date").isSome then d
  else
    match ents.find? (fun e => decide (e.label = "DATE")
        && contextHas text e.start 40 ["maturity", "matures", "due"]) with
    | some e =>
      match dp e.text with
      | some pd2 => dictInsert d "maturity_date" (formatYMD pd2)
      | none => dictInsert d "maturity_date" e.text
    | none => d

def entPercentBlock (ents : List SpacyEnt) (text : String)
    (d : List (String × String)) : List (String × String) :=
  if (dictGet d "interest_rate").isSome then d
  else
    match ents.find? (fun e => decide (e.label = "PERCENT")
        && contextHas text e.start 40 ["interest", "rate", "coupon"]) with
    | some e => dictInsert d "interest_rate" e.text
    | none => d

def entOrgBlock (ents : List SpacyEnt) (d : List (String × String)) :
    List (String × String) :=
  if (dictGet d "counterparty").isSome then d
  else
    match ents.find? (fun e => decide (e.label = "ORG")) with
    | some e => dictInsert d "counterparty" e.text
    | none => d

def entMoneyBlock (ents : List SpacyEnt) (text : String)
    (d : List (String × String)) : List (String × String) :=
  if (dictGet d "principal").isSome || (dictGet d "loan_amount").isSome then d
  else
    match ents.find? (fun e => decide (e.label = "MONEY")) with
    | some e =>
      if contextHas text e.start 30 ["principal", "amount"] then
        dictInsert d "principal" e.text
      else d
    | none => d

def entityStage (ents : List SpacyEnt) (dp : String → Option PyDate)
    (text : String) (d : List (String × String)) : List (String × String) :=
  entMoneyBlock ents text (entOrgBlock ents (entPercentBlock ents text (entDateBlock ents dp text d)))

/-- Key matching of the line heuristic (source lines 108-119): a direct
vocabulary equality, else the first vocabulary term whose similarity to the
key is strictly greater than 65; the matched term is underscored. -/
def matchFinancialTerm (simf : String → String → Nat) (key : String) :
    Option String :=
  if financialTerms.any (fun t => decide (t = key)) then some (spaceToUnderscore key)
  else (financialTerms.find? (fun t => decide (simf key t > 65))).map spaceToUnderscore

/-- One line/separator step of the line heuristic: split once at the
separator, trim, and decide whether (and under which label) to write. -/
def sepWrite (simf : String → String → Nat) (line : String) (sep : Char) :
    Option (String × String) :=
  if line.toList.contains sep then
    let parts := splitOnce line sep
    let key := pyLower (pyStrip parts.1)
    let value := pyStrip parts.2
    if value = "" then none
    else (matchFinancialTerm simf key).map (fun nk => (nk, value))
  else none

/-- The write sequence of the line-heuristic stage, in scan order.  The
stage never consults the accumulated mapping, so it is exactly the fold of
this sequence. -/
def lineWrites (simf : String → String → Nat) (text : String) :
    List (String × String) :=
  ((splitChar text '\n').map (fun line =>
    [':', '-', '='].filterMap (fun sep => sepWrite simf line sep))).flatten

/-- Line-heuristic stage of `structure_data`: every write is an
unconditional dict update. -/
def lineStage (simf : String → String → Nat) (text : String)
    (d : List (String × String)) : List (String × String) :=
  (lineWrites simf text).foldl (fun d p => dictInsert d p.1 p.2) d

/-- Embeds `DataStructurer.structure_data`: pattern stage, then entity fallback on
the size-limited text, then the line heuristic. -/
def structureData (rm : String → String → List String)
    (nlp : String → List SpacyEnt) (dp : String → Option PyDate)
    (simf : String → String → Nat) (text : String) : List (String × String) :=
  lineStage simf text (entityStage (nlp (strTake text 100000)) dp text (patternStage rm text []))

/-- The lowercased term column of the master table, as a list. -/
def lowerTerms (master : List MasterRule) : List String :=
  master.map (fun r => pyLower r.term)

/-- The fuzzy-match accumulator loop of `normalize_terms` (source lines
160-167): keep a candidate only when its score strictly exceeds both the
best so far and the threshold 60. -/
def bestFuzzyFold (simf : String → String → Nat) (display : String)
    (mts : List String) : Nat × Option String :=
  mts.foldl (fun acc mt =>
    let score := simf (pyLower display) (pyLower mt)
    if acc.1 < score ∧ 60 < score then (score, some mt) else acc) (0, none)

/-- The canonical name assigned to one extracted key by
`DataStructurer.normalize_terms`: exact case-insensitive match, else the
fuzzy winner, else the title-cased display form. -/
def canonOf (simf : String → String → Nat) (master : List MasterRule)
    (key : String) : String :=
  let display := underscoreToSpace key
  let mts := lowerTerms master
  if pyLower display ∈ mts then
    match master.find? (fun r => decide (pyLower r.term = pyLower display)) with
    | some r => r.term
    | none => display
  else
    match (bestFuzzyFold simf display mts).2 with
    | some bm =>
      match master.find? (fun r => decide (pyLower r.term = bm)) with
      | some r => r.term
      | none => pyTitle bm
    | none => pyTitle display

/-- Embeds `DataStructurer.normalize_terms`: rebind every extracted key under its
canonical name, in insertion order, later collisions overwriting. -/
def normalizeTerms (simf : String → String → Nat)
    (terms : List (String × String)) (master : List MasterRule) :
    List (String × String) :=
  terms.foldl (fun acc p => dictInsert acc (canonOf simf master p.1) p.2) []

/-- The pipeline as composed by the API layer: structure, normalize,
validate. -/
def runPipeline (rm : String → String → List String)
    (nlp : String → List SpacyEnt) (du : String → Option PyDate)
    (dp : String → Option PyDate) (simf : String → String → Nat)
    (text : String) (master : List MasterRule) : List ValidationRecord :=
  validateTerms du dp simf (normalizeTerms simf (structureData rm nlp dp simf text) master) master

/-- The value of the last write to a key in a write sequence. -/
def lastWrite : List (String × String) → String → Option String
  | [], _ => none
  | p :: ws, k =>
    match lastWrite ws k with
    | some v => some v
    | none => if p.1 = k then some p.2 else none

/-! ### Shared concrete capability instances for closed statements -/
def rmNone : String → String → List String := fun _ _ => []

def nlpNone : String → List SpacyEnt := fun _ => []

def duNone : String → Option PyDate := fun _ => none

def dpNone : String → Option PyDate := fun _ => none

def simf0 : String → String → Nat := fun _ _ => 0

/-! ### Fuzzy-maximum lemmas for the normalizer -/
def lmax (l : List Nat) : Nat := l.foldr max 0

def normScore (simf : String → String → Nat) (key t : String) : Nat :=
  simf (pyLower (underscoreToSpace key)) (pyLower t)

def c5SimA : String → String → Nat := fun a b =>
  if a = "foo" ∧ b = "alpha" then 61 else 0

def c5SimB : String → String → Nat := fun a b =>
  if a = "foo" ∧ b = "alpha" then 60 else 0

def c5Master : List MasterRule := [⟨"Alpha", none, none⟩]

def c9Master : List MasterRule := [⟨"Interest Rate", none, none⟩]

/-! ### C7: the text domain ignores the allowed range when an expected
value is present -/
def c7Sim : String → String → Nat := fun _ _ => 20

def c6Sim : String → String → Nat := fun a b =>
  if a = "foo" ∧ b = "interest rate" then 66
  else if a = "foo" ∧ b = "maturity date" then 90 else 0

def c6Sim65 : String → String → Nat := fun a b =>
  if a = "foo" ∧ b = "interest rate" then 65 else 0

def c6SimW : String → String → Nat := fun a b =>
  if a = "foo" ∧ b = "maturity date" then 80 else 0

/-! ### C1: exactly one record per master term -/
def ruleEntry (r : MasterRule) : String × (Option String × Option String) :=
  (r.term, (r.expectedValue, r.allowedRange))

/-! ### C4: the end-to-end scenario -/
def c4Text : String := "Interest Rate: 5.5%\nMaturity Date: 2030-01-01"

def c4Master : List MasterRule :=
  [⟨"Interest Rate", some "5.5", some "4.0-6.0"⟩,
   ⟨"Maturity Date", none, some "≥2025-01-01"⟩]

def c4Rm : String → String → List String := fun k t =>
  if k = "interest_rate" ∧ t = c4Text then ["5.5"]
  else if k = "maturity_date" ∧ t = c4Text then ["2030-01-01"]
  else []

def c4Du : String → Option PyDate := fun s =>
  if s = "01-01" then some ⟨2026, 1, 1⟩ else none

def c4Dp : String → Option PyDate := fun s =>
  if s = "01-01" then some ⟨2026, 1, 1⟩
  else if s = "2025-01-01" then some ⟨2025, 1, 1⟩ else none

def c4Sim : String → String → Nat := fun a b =>
  if a = "maturity date: 2030" ∧ b = "interest rate" then 44
  else if a = "maturity date: 2030" ∧ b = "maturity date" then 81 else 0

/-- The numeric expected-value comparison has not already accepted the
value, so `_validate_number` goes on to the allowed-range check: either no
expected value is present, or it parses and the closeness test fails. -/
def numericReachesRange (x : PyFloat) (expected : Option String) : Prop :=
  expected = none ∨ ∃ ev e, expected = some ev ∧
    parseFloat (numericStrip ev) = some e ∧ iscloseF x e = false

/-- The date expected-value comparison has not already accepted the value,
so `_validate_date` goes on to the allowed-range check. -/
def dateReachesRange (dp : String → Option PyDate) (es : String)
    (expected : Option String) : Prop :=
  expected = none ∨ ∃ ev, expected = some ev ∧ optDateEq (dp es) (dp ev) = false

/-! ### Theorems -/

/-! ### Dictionary lemmas -/
theorem dictGet_insert {α : Type} (d : List (String × α)) (k : String) (v : α)
    (k2 : String) :
    dictGet (dictInsert d k v) k2 = if k = k2 then some v else dictGet d k2 := by
  induction d with
  | nil => simp [dictInsert, dictGet]
  | cons p rest ih =>
    by_cases h1 : p.1 = k
    · simp only [dictInsert, h1, if_pos rfl]
      by_cases h2 : k = k2
      · simp [dictGet, h2]
      · simp [dictGet, h2, h1]
    · simp only [dictInsert, if_neg h1]
      by_cases h2 : p.1 = k2
      · have : ¬ k = k2 := fun h => h1 (h2.trans h.symm)
        simp [dictGet, h2, this]
      · simp [dictGet, h2, ih]

theorem dictInsert_of_get_none {α : Type} (d : List (String × α)) (k : String)
    (v : α) (h : dictGet d k = none) : dictInsert d k v = d ++ [(k, v)] := by
  induction d with
  | nil => simp [dictInsert]
  | cons p rest ih =>
    by_cases h1 : p.1 = k
    · simp [dictGet, h1] at h
    · simp only [dictGet, if_neg h1] at h
      simp [dictInsert, h1, ih h]

theorem dictGet_append_of_none {α : Type} (a b : List (String × α)) (k : String)
    (h : dictGet a k = none) : dictGet (a ++ b) k = dictGet b k := by
  induction a with
  | nil => simp
  | cons p rest ih =>
    by_cases h1 : p.1 = k
    · simp [dictGet, h1] at h
    · simp only [dictGet, if_neg h1] at h
      simpa [dictGet, h1] using ih h

theorem dictGet_foldl_insert (ws : List (String × String)) :
    ∀ (d : List (String × String)) (k : String),
    dictGet (ws.foldl (fun d p => dictInsert d p.1 p.2) d) k =
      match lastWrite ws k with
      | some v => some v
      | none => dictGet d k := by
  induction ws with
  | nil => intro d k; simp [lastWrite]
  | cons p ws ih =>
    intro d k
    simp only [List.foldl_cons, lastWrite, ih, dictGet_insert]
    by_cases h : p.1 = k
    · subst h
      cases lastWrite ws p.1 <;> simp
    · cases lastWrite ws k <;> simp [h]

/-! ### Extraction-stage lemmas -/
theorem patWriteKey_preserve (gs : List String) (key : String) :
    ∀ (d : List (String × String)) (k : String),
    (dictGet d k).isSome → dictGet (patWriteKey gs key d) k = dictGet d k := by
  induction gs with
  | nil => intro d k _; rfl
  | cons g gs ih =>
    intro d k hk
    simp only [patWriteKey, List.foldl_cons]
    by_cases hp : (dictGet d key).isSome
    · simpa [patWriteKey, hp] using ih d k hk
    · simp only [hp, Bool.false_eq_true, if_false]
      have hne : key ≠ k := by
        intro h; subst h; rw [Option.isSome_iff_exists] at hk
        obtain ⟨v, hv⟩ := hk; rw [hv] at hp; simp at hp
      have h1 : dictGet (dictInsert d key (pyStrip g)) k = dictGet d k := by
        rw [dictGet_insert, if_neg hne]
      have h2 : (dictGet (dictInsert d key (pyStrip g)) k).isSome := by
        rw [h1]; exact hk
      have := ih (dictInsert d key (pyStrip g)) k h2
      simpa [patWriteKey, h1] using this

theorem patWriteKey_other (gs : List String) (key : String) :
    ∀ (d : List (String × String)) (k : String), key ≠ k →
    dictGet (patWriteKey gs key d) k = dictGet d k := by
  induction gs with
  | nil => intro d k _; rfl
  | cons g gs ih =>
    intro d k hne
    simp only [patWriteKey, List.foldl_cons]
    by_cases hp : (dictGet d key).isSome
    · simpa [patWriteKey, hp] using ih d k hne
    · simp only [hp, Bool.false_eq_true, if_false]
      have h1 : dictGet (dictInsert d key (pyStrip g)) k = dictGet d k := by
        rw [dictGet_insert, if_neg hne]
      have := ih (dictInsert d key (pyStrip g)) k hne
      simpa [patWriteKey, h1] using this

theorem patWriteKey_absent (gs : List String) (key : String)
    (d : List (String × String)) (h : dictGet d key = none) :
    dictGet (patWriteKey gs key d) key = (gs.head?).map pyStrip := by
  cases gs with
  | nil => simpa [patWriteKey]
  | cons g gs =>
    simp only [patWriteKey, List.foldl_cons, h, Option.isSome_none,
      Bool.false_eq_true, if_false, List.head?]
    have h1 : dictGet (dictInsert d key (pyStrip g)) key = some (pyStrip g) := by
      rw [dictGet_insert, if_pos rfl]
    have h2 : (dictGet (dictInsert d key (pyStrip g)) key).isSome := by
      rw [h1]; rfl
    have := patWriteKey_preserve gs key (dictInsert d key (pyStrip g)) key h2
    simp only [patWriteKey] at this
    rw [this, h1]
    rfl

theorem patFold_preserve (keys : List String) (rm : String → String → List String)
    (text : String) :
    ∀ (d : List (String × String)) (k : String), (dictGet d k).isSome →
    dictGet (keys.foldl (fun d key => patWriteKey (rm key text) key d) d) k =
      dictGet d k := by
  induction keys with
  | nil => intro d k _; rfl
  | cons key keys ih =>
    intro d k hk
    simp only [List.foldl_cons]
    have h1 := patWriteKey_preserve (rm key text) key d k hk
    have h2 : (dictGet (patWriteKey (rm key text) key d) k).isSome := by
      rw [h1]; exact hk
    rw [ih _ k h2, h1]

theorem patternStage_preserve (rm : String → String → List String) (text : String)
    (d : List (String × String)) (k : String) (hk : (dictGet d k).isSome) :
    dictGet (patternStage rm text d) k = dictGet d k :=
  patFold_preserve patternKeys rm text d k hk

theorem patFold_other (keys : List String) (rm : String → String → List String)
    (text : String) :
    ∀ (d : List (String × String)) (k : String), k ∉ keys →
    dictGet (keys.foldl (fun d key => patWriteKey (rm key text) key d) d) k =
      dictGet d k := by
  induction keys with
  | nil => intro d k _; rfl
  | cons key keys ih =>
    intro d k hk
    have hne : key ≠ k := fun h => hk (h ▸ List.mem_cons_self key keys)
    have hk2 : k ∉ keys := fun h => hk (List.mem_cons_of_mem key h)
    simp only [List.foldl_cons]
    rw [ih _ k hk2, patWriteKey_other _ _ _ _ hne]

theorem patFold_first (keys : List String) (rm : String → String → List String)
    (text : String) :
    ∀ (d : List (String × String)) (k : String), keys.Nodup → k ∈ keys →
    dictGet d k = none →
    dictGet (keys.foldl (fun d key => patWriteKey (rm key text) key d) d) k =
      ((rm k text).head?).map pyStrip := by
  induction keys with
  | nil => intro d k _ hmem _; cases hmem
  | cons key keys ih =>
    intro d k hnd hmem habs
    simp only [List.foldl_cons]
    rcases List.mem_cons.mp hmem with h | h
    · subst h
      have hnotin : k ∉ keys := (List.nodup_cons.mp hnd).1
      rw [patFold_other keys rm text _ k hnotin]
      exact patWriteKey_absent (rm k text) k d habs
    · have hne : key ≠ k := by
        intro he; subst he
        exact (List.nodup_cons.mp hnd).1 h
      have habs2 : dictGet (patWriteKey (rm key text) key d) k = none := by
        rw [patWriteKey_other _ _ _ _ hne]; exact habs
      exact ih _ k (List.nodup_cons.mp hnd).2 h habs2

theorem patternStage_first_match (rm : String → String → List String)
    (text : String) (d : List (String × String)) (k : String)
    (hmem : k ∈ patternKeys) (habs : dictGet d k = none) :
    dictGet (patternStage rm text d) k = ((rm k text).head?).map pyStrip :=
  patFold_first patternKeys rm text d k (by decide) hmem habs

theorem dictInsert_preserve_of_absent (d : List (String × String))
    (key v k : String) (h1 : (dictGet d k).isSome)
    (h2 : (dictGet d key).isSome = false) :
    dictGet (dictInsert d key v) k = dictGet d k := by
  have hne : key ≠ k := by
    intro he; subst he; rw [h1] at h2; cases h2
  rw [dictGet_insert, if_neg hne]

theorem entDateBlock_preserve (ents : List SpacyEnt) (dp : String → Option PyDate)
    (text : String) (d : List (String × String)) (k : String)
    (hk : (dictGet d k).isSome) :
    dictGet (entDateBlock ents dp text d) k = dictGet d k := by
  unfold entDateBlock
  split
  · rfl
  · rename_i hg
    simp only [Bool.not_eq_true] at hg
    split
    · rename_i e _
      split
      · exact dictInsert_preserve_of_absent d _ _ k hk hg
      · exact dictInsert_preserve_of_absent d _ _ k hk hg
    · rfl

theorem entPercentBlock_preserve (ents : List SpacyEnt) (text : String)
    (d : List (String × String)) (k : String) (hk : (dictGet d k).isSome) :
    dictGet (entPercentBlock ents text d) k = dictGet d k := by
  unfold entPercentBlock
  split
  · rfl
  · rename_i hg
    simp only [Bool.not_eq_true] at hg
    split
    · exact dictInsert_preserve_of_absent d _ _ k hk hg
    · rfl

theorem entOrgBlock_preserve (ents : List SpacyEnt)
    (d : List (String × String)) (k : String) (hk : (dictGet d k).isSome) :
    dictGet (entOrgBlock ents d) k = dictGet d k := by
  unfold entOrgBlock
  split
  · rfl
  · rename_i hg
    simp only [Bool.not_eq_true] at hg
    split
    · exact dictInsert_preserve_of_absent d _ _ k hk hg
    · rfl

theorem entMoneyBlock_preserve (ents : List SpacyEnt) (text : String)
    (d : List (String × String)) (k : String) (hk : (dictGet d k).isSome) :
    dictGet (entMoneyBlock ents text d) k = dictGet d k := by
  unfold entMoneyBlock
  split
  · rfl
  · rename_i hg
    simp only [Bool.or_eq_true, not_or, Bool.not_eq_true] at hg
    split
    · split
      · exact dictInsert_preserve_of_absent d _ _ k hk hg.1
      · rfl
    · rfl

theorem entityStage_preserve (ents : List SpacyEnt) (dp : String → Option PyDate)
    (text : String) (d : List (String × String)) (k : String)
    (hk : (dictGet d k).isSome) :
    dictGet (entityStage ents dp text d) k = dictGet d k := by
  unfold entityStage
  have h1 := entDateBlock_preserve ents dp text d k hk
  have i1 : (dictGet (entDateBlock ents dp text d) k).isSome := by rw [h1]; exact hk
  have h2 := entPercentBlock_preserve ents text _ k i1
  have i2 : (dictGet (entPercentBlock ents text (entDateBlock ents dp text d)) k).isSome := by
    rw [h2]; exact i1
  have h3 := entOrgBlock_preserve ents _ k i2
  have i3 : (dictGet (entOrgBlock ents (entPercentBlock ents text (entDateBlock ents dp text d))) k).isSome := by
    rw [h3]; exact i2
  have h4 := entMoneyBlock_preserve ents text _ k i3
  rw [h4, h3, h2, h1]

/-! ### C3: stage order and overwrite discipline -/
/-- C3: `structure_data` runs pattern, entity fallback and line heuristic in
that fixed order; the pattern stage records only the first captured group
of a patterns own key and never overwrites a label that is already
present; the entity fallback never overwrites a present label; and the
line-heuristic stage writes unconditionally — the last line write to a key
is the final value for that key, replacing anything the earlier stages
recorded there. -/
theorem c3_stage_order_and_overwrites
    (rm : String → String → List String) (nlp : String → List SpacyEnt)
    (dp : String → Option PyDate) (simf : String → String → Nat)
    (text : String) (d d2 : List (String × String)) (k k2 k3 v : String)
    (hk : (dictGet d k).isSome)
    (hw : lastWrite (lineWrites simf text) k2 = some v)
    (hk3 : k3 ∈ patternKeys) (habs : dictGet d2 k3 = none) :
    structureData rm nlp dp simf text =
      lineStage simf text
        (entityStage (nlp (strTake text 100000)) dp text (patternStage rm text [])) ∧
    dictGet (patternStage rm text d) k = dictGet d k ∧
    dictGet (patternStage rm text d2) k3 = ((rm k3 text).head?).map pyStrip ∧
    dictGet (entityStage (nlp (strTake text 100000)) dp text d) k = dictGet d k ∧
    dictGet (lineStage simf text d) k2 = some v := by
  refine ⟨rfl, patternStage_preserve rm text d k hk,
    patternStage_first_match rm text d2 k3 hk3 habs,
    entityStage_preserve _ dp text d k hk, ?_⟩
  unfold lineStage
  rw [dictGet_foldl_insert, hw]

/-- Witness for C3 at a concrete input: a label present before the pattern
and entity stages survives them unchanged, an absent pattern label receives
the first captured group (here: none), and the line stage overwrites the
previously recorded value. -/
theorem c3_witness :
    dictGet (patternStage rmNone "principal: 7" [("principal", "x")]) "principal"
        = some "x" ∧
    dictGet (patternStage rmNone "principal: 7" []) "borrower" = none ∧
    dictGet (entityStage (nlpNone (strTake "principal: 7" 100000)) dpNone
        "principal: 7" [("principal", "x")]) "principal" = some "x" ∧
    dictGet (lineStage simf0 "principal: 7" [("principal", "x")]) "principal"
        = some "7" := by
  have h := c3_stage_order_and_overwrites rmNone nlpNone dpNone simf0
    "principal: 7" [("principal", "x")] [] "principal" "principal" "borrower" "7"
    (by decide) (by decide) (by decide) (by decide)
  exact ⟨h.2.1.trans (by decide), (h.2.2.1).trans (by decide),
    h.2.2.2.1.trans (by decide), h.2.2.2.2⟩

theorem le_lmax_of_mem {x : Nat} {l : List Nat} (h : x ∈ l) : x ≤ lmax l := by
  induction l with
  | nil => cases h
  | cons a l ih =>
    rcases List.mem_cons.mp h with h | h
    · subst h; exact Nat.le_max_left _ _
    · exact Nat.le_trans (ih h) (Nat.le_max_right _ _)

theorem bestFold_stay (score : String → Nat) (l : List String) :
    ∀ (s : Nat) (m : Option String), (∀ t ∈ l, score t ≤ s ∨ score t ≤ 60) →
    l.foldl (fun acc mt => if acc.1 < score mt ∧ 60 < score mt then (score mt, some mt) else acc)
      (s, m) = (s, m) := by
  induction l with
  | nil => intro s m _; rfl
  | cons h l ih =>
    intro s m hb
    simp only [List.foldl_cons]
    have : ¬ (s < score h ∧ 60 < score h) := by
      rcases hb h (List.mem_cons_self h l) with h1 | h1
      · intro hc; exact absurd hc.1 (Nat.not_lt.mpr h1)
      · intro hc; exact absurd hc.2 (Nat.not_lt.mpr h1)
    rw [if_neg this]
    exact ih s m (fun t ht => hb t (List.mem_cons_of_mem h ht))

theorem bestFold_argmax (score : String → Nat) (l : List String) :
    ∀ (s : Nat) (m : Option String),
    60 < lmax (l.map score) → s < lmax (l.map score) →
    (l.foldl (fun acc mt => if acc.1 < score mt ∧ 60 < score mt then (score mt, some mt) else acc)
      (s, m)).2 = l.find? (fun t => decide (score t = lmax (l.map score))) := by
  induction l with
  | nil =>
    intro s m h60 _
    rw [List.map_nil] at h60
    exact absurd h60 (by decide)
  | cons h l ih =>
    intro s m h60 hs
    simp only [List.map_cons] at h60 hs ⊢
    have hM : lmax (score h :: List.map score l) = max (score h) (lmax (List.map score l)) := rfl
    by_cases he : score h = lmax (score h :: List.map score l)
    · simp only [List.foldl_cons]
      rw [if_pos ⟨lt_of_lt_of_eq hs he.symm, lt_of_lt_of_eq h60 he.symm⟩]
      rw [bestFold_stay score l (score h) (some h) ?side]
      case side =>
        intro t ht
        left
        calc score t ≤ lmax (List.map score l) :=
              le_lmax_of_mem (List.mem_map_of_mem score ht)
          _ ≤ max (score h) (lmax (List.map score l)) := Nat.le_max_right _ _
          _ = score h := by rw [← hM, ← he]
      rw [List.find?_cons_of_pos _ (by simpa using he)]
    · have hrest : lmax (List.map score l) = lmax (score h :: List.map score l) := by
        rcases Nat.le_total (score h) (lmax (List.map score l)) with hle | hle
        · rw [hM, Nat.max_eq_right hle]
        · exact absurd (by rw [hM, Nat.max_eq_left hle]) he
      simp only [List.foldl_cons]
      rw [List.find?_cons_of_neg _ (by simpa using he)]
      by_cases hg : s < score h ∧ 60 < score h
      · rw [if_pos hg]
        have hlt : score h < lmax (score h :: List.map score l) :=
          Nat.lt_of_le_of_ne (hM ▸ Nat.le_max_left _ _) he
        have := ih (score h) (some h) (hrest ▸ h60)
          (by rw [hrest]; exact hlt)
        rw [hrest] at this
        exact this
      · rw [if_neg hg]
        have := ih s m (hrest ▸ h60) (by rw [hrest]; exact hs)
        rw [hrest] at this
        exact this

theorem bestFuzzyFold_eq_foldl (simf : String → String → Nat) (key : String)
    (mts : List String) :
    bestFuzzyFold simf (underscoreToSpace key) mts =
      mts.foldl (fun acc mt =>
        if acc.1 < normScore simf key mt ∧ 60 < normScore simf key mt then
          (normScore simf key mt, some mt)
        else acc) (0, none) := rfl

/-- C5: with no exact case-insensitive vocabulary match, an extracted key is
normalized to the original-cased form of the first vocabulary entry (in
table order) achieving the maximal similarity score when that maximum
exceeds 60, and to the title-cased display form when the maximum is 60 or
below. -/
theorem c5_fuzzy_threshold_and_tiebreak (simf : String → String → Nat)
    (master : List MasterRule) (key mt : String) (r0 : MasterRule)
    (hne : pyLower (underscoreToSpace key) ∉ lowerTerms master) :
    (60 < lmax ((lowerTerms master).map (normScore simf key)) →
      (lowerTerms master).find?
          (fun t => decide (normScore simf key t =
            lmax ((lowerTerms master).map (normScore simf key)))) = some mt →
      master.find? (fun r => decide (pyLower r.term = mt)) = some r0 →
      canonOf simf master key = r0.term) ∧
    (lmax ((lowerTerms master).map (normScore simf key)) ≤ 60 →
      canonOf simf master key = pyTitle (underscoreToSpace key)) := by
  constructor
  · intro h60 hfind hr0
    have hb : (bestFuzzyFold simf (underscoreToSpace key) (lowerTerms master)).2 = some mt := by
      rw [bestFuzzyFold_eq_foldl]
      rw [bestFold_argmax (normScore simf key) (lowerTerms master) 0 none h60
        (Nat.lt_of_le_of_lt (Nat.zero_le 60) h60)]
      exact hfind
    simp only [canonOf]
    rw [if_neg hne]
    simp only [hb, hr0]
  · intro h60
    have hb : (bestFuzzyFold simf (underscoreToSpace key) (lowerTerms master)).2 = none := by
      rw [bestFuzzyFold_eq_foldl]
      rw [bestFold_stay (normScore simf key) (lowerTerms master) 0 none ?_]
      intro t ht
      right
      exact Nat.le_trans (le_lmax_of_mem (List.mem_map_of_mem _ ht)) h60
    simp only [canonOf]
    rw [if_neg hne]
    simp only [hb]

/-- Witness for C5: similarity exactly 61 to the only entry normalizes to
that entry in its original casing; similarity 60 falls back to the
title-cased key. -/
theorem c5_witness :
    canonOf c5SimA c5Master "foo" = "Alpha" ∧
    canonOf c5SimB c5Master "foo" = "Foo" := by
  constructor
  · exact (c5_fuzzy_threshold_and_tiebreak c5SimA c5Master "foo" "alpha"
      ⟨"Alpha", none, none⟩ (by decide)).1 (by decide) (by decide) (by decide)
  · exact (c5_fuzzy_threshold_and_tiebreak c5SimB c5Master "foo" "alpha"
      ⟨"Alpha", none, none⟩ (by decide)).2 (by decide)

/-! ### C9: normalization collisions -/
/-- C9: two distinct extracted keys that normalize to the same canonical
name leave a single entry for that name whose value comes from the later
key (last writer wins), so the normalized mapping is shorter than the
extracted one. -/
theorem c9_collision_last_writer_wins (simf : String → String → Nat)
    (master : List MasterRule) (k1 v1 k2 v2 : String) (_hk : k1 ≠ k2)
    (hc : canonOf simf master k1 = canonOf simf master k2) :
    normalizeTerms simf [(k1, v1), (k2, v2)] master
        = [(canonOf simf master k1, v2)] ∧
    (normalizeTerms simf [(k1, v1), (k2, v2)] master).length
        < ([(k1, v1), (k2, v2)] : List (String × String)).length := by
  have h : normalizeTerms simf [(k1, v1), (k2, v2)] master
      = [(canonOf simf master k1, v2)] := by
    simp only [normalizeTerms, List.foldl_cons, List.foldl_nil, dictInsert]
    rw [if_pos hc, ← hc]
  exact ⟨h, by rw [h]; simp⟩

/-- Witness for C9: the keys `interest_rate` and `interest rate` both
normalize to `Interest Rate`; the later value wins and the mapping shrinks
from two entries to one. -/
theorem c9_witness :
    normalizeTerms simf0 [("interest_rate", "a"), ("interest rate", "b")] c9Master
        = [(canonOf simf0 c9Master "interest_rate", "b")] ∧
    (normalizeTerms simf0 [("interest_rate", "a"), ("interest rate", "b")] c9Master).length
        < ([("interest_rate", "a"), ("interest rate", "b")] : List (String × String)).length :=
  c9_collision_last_writer_wins simf0 c9Master "interest_rate" "a" "interest rate" "b"
    (by decide) (by decide)

/-! ### C10: the numeric strip discards minus signs -/
/-- C10: the numeric stripping step keeps only digits and the decimal
point, so a leading minus sign is discarded and a negative input is parsed
and compared as its absolute digit string: `-5` becomes the number 5,
which matches an expected value of `5`; the same stripping applies to
range bounds, so the bound `≥-10` becomes 10. -/
theorem c10_minus_signs_discarded (du : String → Option PyDate)
    (hdu : du "-5" = none) :
    (∀ s : String, stripChars ('-' :: s.toList) = stripChars s.toList) ∧
    determineValueType du "-5" = "number" ∧
    parseFloat (numericStrip "-5") = some ⟨5, 0, 0⟩ ∧
    PyFloat.toRat ⟨5, 0, 0⟩ = 5 ∧
    validateNumber "-5" (some "5") none = (true, Note.numberMatchesExpected) ∧
    validateNumber "5" none (some "≥-10") = (false, Note.numberBelowMin ⟨10, 0, 0⟩) := by
  refine ⟨fun s => rfl, ?_, by decide, ?_, by decide, by decide⟩
  · unfold determineValueType
    rw [hdu]
    decide
  · simp [PyFloat.toRat]

/-- Witness for C10 with the trivial date parser. -/
theorem c10_witness :
    determineValueType duNone "-5" = "number" ∧
    validateNumber "-5" (some "5") none = (true, Note.numberMatchesExpected) :=
  have h := c10_minus_signs_discarded duNone (by decide)
  ⟨h.2.1, h.2.2.2.2.1⟩

/-- Counterexample for C7: extracted `gamma` fails both checks against the
expected `alpha`, and the allowed range enumeration `beta|gamma` contains
`gamma` — the claim predicts Valid, but the code returns Invalid with the
similarity note, never consulting the range. -/
theorem c7_counterexample :
    validateText c7Sim "gamma" (some "alpha") (some "beta|gamma")
        = (false, Note.textNoMatch 20) ∧
    ((splitChar "beta|gamma" '|').map pyStrip).contains "gamma" = true := by
  constructor <;> decide

/-- C7 as amended: when an expected value is present and both the exact and
the fuzzy (at least 90) checks fail, the verdict is Invalid with the
similarity note, whatever the allowed range holds; the pipe-delimited
enumeration check runs only when no expected value is present, and then
membership decides the verdict. -/
theorem c7_enumeration_only_without_expected (simf : String → String → Nat)
    (es ev : String) (allowed : Option String)
    (hne : ¬ pyLower es = pyLower (pyStrip ev))
    (hsim : simf (pyLower es) (pyLower (pyStrip ev)) < 90) :
    validateText simf es (some ev) allowed
        = (false, Note.textNoMatch (simf (pyLower es) (pyLower (pyStrip ev)))) ∧
    (∀ rs : String, strContainsSub rs "|" = true →
      validateText simf es none (some rs) =
        (if ((splitChar rs '|').map pyStrip).contains es
            ∨ ((splitChar rs '|').map pyStrip).any (fun v => decide (pyLower es = pyLower v))
         then (true, Note.textInAllowed)
         else (false, Note.textNotInAllowed ((splitChar rs '|').map pyStrip)))) := by
  constructor
  · simp only [validateText]
    rw [if_neg hne, if_neg (Nat.not_le.mpr hsim)]
  · intro rs h
    simp only [validateText]
    rw [if_pos h]

/-- Witness for C7: the never-matching similarity function, extracted text
`delta` against expected `alpha` with no range, and against the
enumeration `beta|gamma` with no expected value. -/
theorem c7_witness :
    validateText c7Sim "delta" (some "alpha") none = (false, Note.textNoMatch 20) ∧
    validateText c7Sim "delta" none (some "beta|gamma")
        = (false, Note.textNotInAllowed ["beta", "gamma"]) := by
  have h := c7_enumeration_only_without_expected c7Sim "delta" "alpha" none
    (by decide) (by decide)
  refine ⟨h.1, ?_⟩
  rw [h.2 "beta|gamma" (by decide)]
  decide

/-! ### C6: line-heuristic fuzzy matching takes the first entry above 65 -/
theorem find?_append_of_none {α : Type} (p : α → Bool) (l1 l2 : List α)
    (h : l1.find? p = none) : (l1 ++ l2).find? p = l2.find? p := by
  induction l1 with
  | nil => rfl
  | cons a l ih =>
    rw [List.find?_cons] at h
    cases hp : p a with
    | true => rw [hp] at h; cases h
    | false =>
      rw [hp] at h
      rw [List.cons_append, List.find?_cons, hp]
      exact ih h

/-- Counterexample for C6: for the candidate key `foo`, the best-scoring
vocabulary entry with similarity at least 65 is `maturity date` (score 90),
yet the line records the value under `interest_rate` (score 66), the first
entry exceeding 65; and a similarity of exactly 65 writes nothing although
the claim requires a write at 65. -/
theorem c6_counterexample :
    structureData rmNone nlpNone dpNone c6Sim "foo: bar"
        = [("interest_rate", "bar")] ∧
    c6Sim "foo" "maturity date" = 90 ∧
    c6Sim "foo" "interest rate" = 66 ∧
    structureData rmNone nlpNone dpNone c6Sim65 "foo: bar" = [] ∧
    c6Sim65 "foo" "interest rate" = 65 := by
  refine ⟨by decide, by decide, by decide, by decide, by decide⟩

/-- C6 as amended: for a candidate key with no direct vocabulary match, the
line heuristic records the key under the first vocabulary entry (in
vocabulary order) whose similarity strictly exceeds 65 — not the
best-scoring entry — and writes nothing when no entry exceeds 65. -/
theorem c6_first_entry_above_65 (simf : String → String → Nat)
    (key t : String) (l1 l2 : List String)
    (hnd : key ∉ financialTerms)
    (hsplit : financialTerms = l1 ++ t :: l2)
    (hlow : ∀ u ∈ l1, simf key u ≤ 65)
    (hhit : 65 < simf key t) :
    matchFinancialTerm simf key = some (spaceToUnderscore t) ∧
    (∀ simf2 : String → String → Nat,
      (∀ u ∈ financialTerms, simf2 key u ≤ 65) →
      matchFinancialTerm simf2 key = none) := by
  have hdirect : financialTerms.any (fun u => decide (u = key)) = false := by
    rw [List.any_eq_false]
    intro u hu
    simp only [decide_eq_true_eq]
    intro he
    exact hnd (he ▸ hu)
  constructor
  · unfold matchFinancialTerm
    rw [hdirect]
    simp only [Bool.false_eq_true, if_false]
    rw [hsplit]
    rw [find?_append_of_none _ l1 (t :: l2) ?none]
    case none =>
      rw [List.find?_eq_none]
      intro u hu
      simp only [decide_eq_true_eq, Nat.not_lt]
      exact Nat.not_lt.mp (Nat.not_lt.mpr (hlow u hu))
    rw [List.find?_cons_of_pos _ (by simpa using hhit)]
    rfl
  · intro simf2 hall
    unfold matchFinancialTerm
    rw [hdirect]
    simp only [Bool.false_eq_true, if_false]
    rw [List.find?_eq_none.mpr ?allnone]
    · rfl
    case allnone =>
      intro u hu
      simp only [decide_eq_true_eq, Nat.not_lt]
      exact hall u hu

/-- Witness for the amended C6: with score 80 on `maturity date` (the
second vocabulary entry) and 0 elsewhere, the key `foo` is recorded under
`maturity_date`; with all scores at most 65 nothing is recorded. -/
theorem c6_witness :
    matchFinancialTerm c6SimW "foo" = some "maturity_date" ∧
    matchFinancialTerm simf0 "foo" = none := by
  have h := c6_first_entry_above_65 c6SimW "foo" "maturity date"
    ["interest rate"] (financialTerms.drop 2) (by decide) (by decide)
    (by decide) (by decide)
  exact ⟨h.1.trans (by decide), h.2 simf0 (by decide)⟩

/-! ### PyFloat value lemmas -/
theorem scaled_cast (m : Int) (e1 e2 : Int) (h : e1 ≤ e2) :
    ((m * 10 ^ (e2 - e1).toNat : Int) : ℚ) * (10 : ℚ) ^ e1 = (m : ℚ) * (10 : ℚ) ^ e2 := by
  push_cast
  rw [mul_assoc]
  congr 1
  rw [← zpow_natCast (10 : ℚ) (e2 - e1).toNat, Int.toNat_of_nonneg (Int.sub_nonneg.mpr h),
    ← zpow_add₀ (by norm_num : (10 : ℚ) ≠ 0)]
  congr 1
  omega

theorem PyFloat.ble_iff (a b : PyFloat) :
    PyFloat.ble a b = true ↔ a.toRat ≤ b.toRat := by
  unfold PyFloat.ble PyFloat.scaledPair
  have hval : ∀ c : PyFloat, c.toRat = (c.mant : ℚ) * (10 : ℚ) ^ c.keyExp := fun c => rfl
  by_cases h : a.keyExp ≤ b.keyExp
  · rw [if_pos h]
    simp only [decide_eq_true_eq]
    rw [hval a, hval b, ← scaled_cast b.mant a.keyExp b.keyExp h]
    rw [mul_le_mul_right (zpow_pos (by norm_num : (0:ℚ) < 10) a.keyExp)]
    exact_mod_cast Iff.rfl
  · rw [if_neg h]
    have h2 : b.keyExp ≤ a.keyExp := le_of_not_le h
    simp only [decide_eq_true_eq]
    rw [hval a, hval b, ← scaled_cast a.mant b.keyExp a.keyExp h2]
    rw [mul_le_mul_right (zpow_pos (by norm_num : (0:ℚ) < 10) b.keyExp)]
    exact_mod_cast Iff.rfl

theorem PyFloat.sub_toRat (a b : PyFloat) : (a.sub b).toRat = a.toRat - b.toRat := by
  unfold PyFloat.sub
  have hval : ∀ c : PyFloat, c.toRat = (c.mant : ℚ) * (10 : ℚ) ^ c.keyExp := fun c => rfl
  by_cases h : a.keyExp ≤ b.keyExp
  · rw [if_pos h, hval a, hval b]
    show ((a.mant - b.mant * 10 ^ (b.keyExp - a.keyExp).toNat : Int) : ℚ)
        * (10 : ℚ) ^ ((a.keyExp : Int) - ((0 : Nat) : Int)) = _
    rw [show (a.keyExp : Int) - ((0 : Nat) : Int) = a.keyExp by omega]
    push_cast
    rw [sub_mul]
    congr 1
    have := scaled_cast b.mant a.keyExp b.keyExp h
    push_cast at this
    exact this
  · have h2 : b.keyExp ≤ a.keyExp := le_of_not_le h
    rw [if_neg h, hval a, hval b]
    show ((a.mant * 10 ^ (a.keyExp - b.keyExp).toNat - b.mant : Int) : ℚ)
        * (10 : ℚ) ^ ((b.keyExp : Int) - ((0 : Nat) : Int)) = _
    rw [show (b.keyExp : Int) - ((0 : Nat) : Int) = b.keyExp by omega]
    push_cast
    rw [sub_mul]
    congr 1
    have := scaled_cast a.mant b.keyExp a.keyExp h2
    push_cast at this
    exact this

theorem PyFloat.add_toRat (a b : PyFloat) : (a.add b).toRat = a.toRat + b.toRat := by
  unfold PyFloat.add
  have hval : ∀ c : PyFloat, c.toRat = (c.mant : ℚ) * (10 : ℚ) ^ c.keyExp := fun c => rfl
  by_cases h : a.keyExp ≤ b.keyExp
  · rw [if_pos h, hval a, hval b]
    show ((a.mant + b.mant * 10 ^ (b.keyExp - a.keyExp).toNat : Int) : ℚ)
        * (10 : ℚ) ^ ((a.keyExp : Int) - ((0 : Nat) : Int)) = _
    rw [show (a.keyExp : Int) - ((0 : Nat) : Int) = a.keyExp by omega]
    push_cast
    rw [add_mul]
    congr 1
    have := scaled_cast b.mant a.keyExp b.keyExp h
    push_cast at this
    exact this
  · have h2 : b.keyExp ≤ a.keyExp := le_of_not_le h
    rw [if_neg h, hval a, hval b]
    show ((a.mant * 10 ^ (a.keyExp - b.keyExp).toNat + b.mant : Int) : ℚ)
        * (10 : ℚ) ^ ((b.keyExp : Int) - ((0 : Nat) : Int)) = _
    rw [show (b.keyExp : Int) - ((0 : Nat) : Int) = b.keyExp by omega]
    push_cast
    rw [add_mul]
    congr 1
    have := scaled_cast a.mant b.keyExp a.keyExp h2
    push_cast at this
    exact this

theorem PyFloat.fabs_toRat (a : PyFloat) : (a.fabs).toRat = |a.toRat| := by
  unfold PyFloat.fabs PyFloat.toRat
  rw [abs_mul, abs_of_pos (zpow_pos (by norm_num : (0:ℚ) < 10) _)]
  push_cast
  rfl

theorem PyFloat.shift_toRat (a : PyFloat) (k : Int) :
    (a.shift k).toRat = a.toRat * (10 : ℚ) ^ k := by
  unfold PyFloat.shift PyFloat.toRat
  show (a.mant : ℚ) * (10 : ℚ) ^ (a.ex + k - (a.scale : Int)) = _
  rw [show a.ex + k - (a.scale : Int) = (a.ex - (a.scale : Int)) + k from by omega]
  rw [zpow_add₀ (by norm_num : (10 : ℚ) ≠ 0)]
  ring

theorem iscloseF_iff (a b : PyFloat) :
    iscloseF a b = true ↔
      |a.toRat - b.toRat| ≤ 1 / 100000000 + |b.toRat| / 100000 := by
  unfold iscloseF
  rw [PyFloat.ble_iff, PyFloat.fabs_toRat, PyFloat.sub_toRat, PyFloat.add_toRat,
    PyFloat.shift_toRat, PyFloat.fabs_toRat]
  constructor
  · intro h
    refine le_trans h (le_of_eq ?_)
    show PyFloat.toRat ⟨1, 0, -8⟩ + |b.toRat| * (10:ℚ) ^ (-5 : Int) = _
    unfold PyFloat.toRat
    norm_num
    ring
  · intro h
    refine le_trans h (le_of_eq ?_)
    show _ = PyFloat.toRat ⟨1, 0, -8⟩ + |b.toRat| * (10:ℚ) ^ (-5 : Int)
    unfold PyFloat.toRat
    norm_num
    ring

/-! ### C8: numeric expected-value tolerance -/
/-- Counterexample for C8: with expected value `0` and extracted value
`0.000000001` the code returns Valid (the numpy default absolute tolerance
1e-8 absorbs the difference), although the difference is not within
relative tolerance 1e-5 of the expected value — so the comparison is not
equality under relative tolerance 1e-5 alone. -/
theorem c8_counterexample :
    validateNumber "0.000000001" (some "0") none = (true, Note.numberMatchesExpected) ∧
    parseFloat (numericStrip "0.000000001") = some ⟨1, 9, 0⟩ ∧
    parseFloat (numericStrip "0") = some ⟨0, 0, 0⟩ ∧
    ¬ (|PyFloat.toRat ⟨1, 9, 0⟩ - PyFloat.toRat ⟨0, 0, 0⟩|
        ≤ (1 / 100000) * |PyFloat.toRat ⟨0, 0, 0⟩|) := by
  refine ⟨by decide, by decide, by decide, ?_⟩
  unfold PyFloat.toRat
  norm_num

/-- C8 as amended: expected-value comparison in the numeric domain is
`np.isclose` with its defaults — `|extracted - expected| <= 1e-8 +
1e-5 * |expected|` — applied to the values parsed from the stripped
digit strings; with no range rule the verdict is exactly this test. -/
theorem c8_isclose_tolerance (es ev : String) (x e : PyFloat)
    (hx : parseFloat (numericStrip es) = some x)
    (he : parseFloat (numericStrip ev) = some e) :
    validateNumber es (some ev) none =
      (if |x.toRat - e.toRat| ≤ 1 / 100000000 + |e.toRat| / 100000
       then (true, Note.numberMatchesExpected)
       else (false, Note.numberDoesntMatch x ev)) := by
  unfold validateNumber validateNumberBody
  simp only [hx, he]
  by_cases hc : |x.toRat - e.toRat| ≤ 1 / 100000000 + |e.toRat| / 100000
  · rw [if_pos ((iscloseF_iff x e).mpr hc), if_pos hc]
  · have hb : iscloseF x e = false := by
      rw [← Bool.not_eq_true]
      exact fun h => hc ((iscloseF_iff x e).mp h)
    rw [hb, if_neg hc]
    rfl

/-- Witness for C8: expected `6.0` with extracted `6.0000001` is Valid,
extracted `6.1` is Invalid. -/
theorem c8_witness :
    validateNumber "6.0000001" (some "6.0") none = (true, Note.numberMatchesExpected) ∧
    validateNumber "6.1" (some "6.0") none
        = (false, Note.numberDoesntMatch ⟨61, 1, 0⟩ "6.0") := by
  have h1 := c8_isclose_tolerance "6.0000001" "6.0" ⟨60000001, 7, 0⟩ ⟨60, 1, 0⟩
    (by decide) (by decide)
  have h2 := c8_isclose_tolerance "6.1" "6.0" ⟨61, 1, 0⟩ ⟨60, 1, 0⟩
    (by decide) (by decide)
  rw [if_pos (by unfold PyFloat.toRat; norm_num [abs_le])] at h1
  rw [if_neg (by unfold PyFloat.toRat; norm_num [abs_le])] at h2
  exact ⟨h1, h2⟩

theorem matchedRecord_term (du dp : String → Option PyDate)
    (simf : String → String → Nat)
    (md : List (String × (Option String × Option String))) (p : String × String) :
    (matchedRecord du dp simf md p).term = p.1 := by
  unfold matchedRecord
  cases dictGet md p.1 <;> rfl

theorem filter_map_comm {α β : Type} (f : α → β) (p : β → Bool) (l : List α) :
    (l.map f).filter p = (l.filter (fun a => p (f a))).map f := by
  induction l with
  | nil => rfl
  | cons a l ih =>
    simp only [List.map_cons, List.filter_cons]
    cases hp : p (f a) <;> simp [hp, ih]

theorem filter_key_len_one {α : Type} (l : List (String × α)) (T : String)
    (hnd : (l.map Prod.fst).Nodup) (hT : T ∈ l.map Prod.fst) :
    (l.filter (fun p => decide (p.1 = T))).length = 1 := by
  induction l with
  | nil => cases hT
  | cons a l ih =>
    simp only [List.map_cons, List.nodup_cons] at hnd
    rcases List.mem_cons.mp hT with h | h
    · subst h
      rw [List.filter_cons_of_pos (by simp)]
      simp only [List.length_cons]
      have h0 : (l.filter (fun p => decide (p.1 = a.1))).length = 0 := by
        rw [List.length_eq_zero, List.filter_eq_nil_iff]
        intro q hq
        simp only [decide_eq_true_eq]
        intro he
        exact hnd.1 (he ▸ List.mem_map_of_mem Prod.fst hq)
      rw [h0]
    · have hne : a.1 ≠ T := by
        intro he
        exact hnd.1 (he ▸ h)
      rw [List.filter_cons_of_neg (by simpa using hne)]
      exact ih hnd.2 h

theorem filter_key_len_zero {α : Type} (l : List (String × α)) (T : String)
    (hT : T ∉ l.map Prod.fst) :
    (l.filter (fun p => decide (p.1 = T))).length = 0 := by
  rw [List.length_eq_zero, List.filter_eq_nil_iff]
  intro q hq
  simp only [decide_eq_true_eq]
  intro he
  exact hT (he ▸ List.mem_map_of_mem Prod.fst hq)

theorem buildMD_fold (master : List MasterRule) :
    ∀ (acc : List (String × (Option String × Option String))),
    (∀ r ∈ master, dictGet acc r.term = none) →
    (master.map MasterRule.term).Nodup →
    master.foldl (fun d r => dictInsert d r.term (r.expectedValue, r.allowedRange)) acc
      = acc ++ master.map ruleEntry := by
  induction master with
  | nil => intro acc _ _; simp
  | cons r master ih =>
    intro acc hacc hnd
    simp only [List.map_cons, List.nodup_cons] at hnd
    simp only [List.foldl_cons]
    rw [dictInsert_of_get_none acc r.term _ (hacc r (List.mem_cons_self r master))]
    rw [ih (acc ++ [(r.term, (r.expectedValue, r.allowedRange))]) ?hacc2 hnd.2]
    · simp [ruleEntry]
    case hacc2 =>
      intro r2 hr2
      rw [dictGet_append_of_none _ _ _ (hacc r2 (List.mem_cons_of_mem r hr2))]
      have hne : r.term ≠ r2.term := by
        intro he
        exact hnd.1 (he ▸ List.mem_map_of_mem MasterRule.term hr2)
      simp [dictGet, hne]

theorem buildMasterDict_of_nodup (master : List MasterRule)
    (hnd : (master.map MasterRule.term).Nodup) :
    buildMasterDict master = master.map ruleEntry := by
  unfold buildMasterDict
  rw [buildMD_fold master [] (fun r _ => rfl) hnd]
  rfl

theorem dictGet_ruleEntries_isSome (master : List MasterRule) (T : String)
    (h : T ∈ master.map MasterRule.term) :
    (dictGet (master.map ruleEntry) T).isSome := by
  induction master with
  | nil => cases h
  | cons r master ih =>
    simp only [List.map_cons] at h ⊢
    rcases List.mem_cons.mp h with h2 | h2
    · simp [dictGet, ruleEntry, h2]
    · by_cases he : r.term = T
      · simp [dictGet, ruleEntry, he]
      · simpa [dictGet, ruleEntry, he] using ih h2

theorem validateTerms_unfold (du dp : String → Option PyDate)
    (simf : String → String → Nat) (extracted : List (String × String))
    (master : List MasterRule)
    (hmas : (master.map MasterRule.term).Nodup) :
    validateTerms du dp simf extracted master
      = extracted.map (matchedRecord du dp simf (master.map ruleEntry))
        ++ ((master.map ruleEntry).filter
            (fun q => !(extracted.any (fun p => decide (p.1 = q.1))))).map missingRecord := by
  simp only [validateTerms]
  rw [buildMasterDict_of_nodup master hmas]

theorem validateTerms_take_terms (du dp : String → Option PyDate)
    (simf : String → String → Nat) (extracted : List (String × String))
    (master : List MasterRule)
    (hmas : (master.map MasterRule.term).Nodup) :
    ((validateTerms du dp simf extracted master).take extracted.length).map
        ValidationRecord.term = extracted.map Prod.fst := by
  rw [validateTerms_unfold du dp simf extracted master hmas]
  have hlen : (extracted.map (matchedRecord du dp simf (master.map ruleEntry))).length
      = extracted.length := List.length_map _ _
  rw [← hlen, List.take_left, List.map_map]
  exact List.map_congr_left (fun p _ => matchedRecord_term du dp simf _ p)

theorem ruleEntry_keys (master : List MasterRule) :
    (master.map ruleEntry).map Prod.fst = master.map MasterRule.term := by
  rw [List.map_map]
  rfl

/-- C1: for every master term `T`, with distinct extracted keys and
distinct master terms, the output of `validate_terms` contains exactly one
record for `T`: a matched record with status Valid or Invalid when `T` is
among the extracted (normalized) keys, otherwise a synthesized Missing
record with extracted value `Missing`; the first block of records carries
the extracted keys in order and the trailing block carries exactly the
master terms absent from the extracted mapping, in rule-table order, each
as a Missing record. -/
theorem c1_one_record_per_master_term (du dp : String → Option PyDate)
    (simf : String → String → Nat) (extracted : List (String × String))
    (master : List MasterRule) (T : String)
    (hext : (extracted.map Prod.fst).Nodup)
    (hmas : (master.map MasterRule.term).Nodup)
    (hT : T ∈ master.map MasterRule.term) :
    ((validateTerms du dp simf extracted master).filter
        (fun r => decide (r.term = T))).length = 1 ∧
    (T ∈ extracted.map Prod.fst →
      ∀ r ∈ validateTerms du dp simf extracted master, r.term = T →
        r.status = "✅" ∨ r.status = "❌") ∧
    (T ∉ extracted.map Prod.fst →
      ∀ r ∈ validateTerms du dp simf extracted master, r.term = T →
        r.status = "❌" ∧ r.extractedValue = "Missing" ∧ r.notes = Note.termNotFoundDoc) ∧
    ((validateTerms du dp simf extracted master).take extracted.length).map
        ValidationRecord.term = extracted.map Prod.fst ∧
    ((validateTerms du dp simf extracted master).drop extracted.length).map
        ValidationRecord.term
      = (master.map MasterRule.term).filter
          (fun t => !(extracted.any (fun p => decide (p.1 = t)))) ∧
    (∀ r ∈ (validateTerms du dp simf extracted master).drop extracted.length,
        r.status = "❌" ∧ r.extractedValue = "Missing" ∧ r.notes = Note.termNotFoundDoc) := by
  have hout := validateTerms_unfold du dp simf extracted master hmas
  have hlen : (extracted.map (matchedRecord du dp simf (master.map ruleEntry))).length
      = extracted.length := List.length_map _ _
  have hkeys := ruleEntry_keys master
  refine ⟨?count, ?statuses, ?missing, validateTerms_take_terms du dp simf extracted master hmas,
    ?droppart, ?dropshape⟩
  case count =>
    rw [hout, List.filter_append, List.length_append]
    rw [filter_map_comm (matchedRecord du dp simf (master.map ruleEntry))
      (fun r => decide (r.term = T)) extracted]
    rw [List.filter_congr
      (fun p _ => by rw [matchedRecord_term du dp simf (master.map ruleEntry) p] :
        ∀ p ∈ extracted, decide ((matchedRecord du dp simf (master.map ruleEntry) p).term = T)
          = decide (p.1 = T))]
    rw [List.length_map]
    rw [filter_map_comm missingRecord (fun r => decide (r.term = T)) _]
    rw [List.length_map]
    rw [List.filter_filter]
    by_cases hmem : T ∈ extracted.map Prod.fst
    · rw [filter_key_len_one extracted T hext hmem]
      have h0 : ((master.map ruleEntry).filter
          (fun q => decide ((missingRecord q).term = T)
            && !(extracted.any (fun p => decide (p.1 = q.1))))).length = 0 := by
        rw [List.length_eq_zero, List.filter_eq_nil_iff]
        intro q hq
        by_cases he : q.1 = T
        · have hany : extracted.any (fun p => decide (p.1 = q.1)) = true := by
            rw [List.any_eq_true]
            obtain ⟨p, hp, hp1⟩ := List.mem_map.mp hmem
            exact ⟨p, hp, by simp [hp1, he]⟩
          simp [hany]
        · have : (missingRecord q).term = q.1 := rfl
          simp [this, he]
      rw [h0]
    · rw [filter_key_len_zero extracted T hmem]
      have hcongr : ∀ q ∈ master.map ruleEntry,
          (decide ((missingRecord q).term = T)
            && !(extracted.any (fun p => decide (p.1 = q.1))))
          = decide (q.1 = T) := by
        intro q hq
        by_cases he : q.1 = T
        · have hany : extracted.any (fun p => decide (p.1 = q.1)) = false := by
            rw [List.any_eq_false]
            intro p hp
            simp only [decide_eq_true_eq]
            intro hpe
            exact hmem (he ▸ hpe ▸ List.mem_map_of_mem Prod.fst hp)
          have ht : (missingRecord q).term = q.1 := rfl
          rw [ht, hany]
          simp
        · have ht : (missingRecord q).term = q.1 := rfl
          simp [ht, he]
      rw [List.filter_congr hcongr]
      rw [filter_key_len_one (master.map ruleEntry) T (by rw [hkeys]; exact hmas)
        (by rw [hkeys]; exact hT)]
  case statuses =>
    intro hmem r hr hterm
    rw [hout] at hr
    rcases List.mem_append.mp hr with hin | hin
    · obtain ⟨p, hp, rfl⟩ := List.mem_map.mp hin
      have hp1 : p.1 = T := by
        rw [← matchedRecord_term du dp simf (master.map ruleEntry) p]
        exact hterm
      obtain ⟨er, her⟩ := Option.isSome_iff_exists.mp
        (dictGet_ruleEntries_isSome master T hT)
      simp only [matchedRecord, hp1, her]
      cases (validateValue du dp simf p.2 er.1 er.2).1 <;> simp
    · obtain ⟨q, hq, rfl⟩ := List.mem_map.mp hin
      have hq2 := (List.mem_filter.mp hq).2
      have hqT : q.1 = T := hterm
      have hany : extracted.any (fun p => decide (p.1 = q.1)) = true := by
        rw [List.any_eq_true]
        obtain ⟨p, hp, hp1⟩ := List.mem_map.mp hmem
        exact ⟨p, hp, by simp [hp1, hqT]⟩
      rw [hany] at hq2
      cases hq2
  case missing =>
    intro hmem r hr hterm
    rw [hout] at hr
    rcases List.mem_append.mp hr with hin | hin
    · obtain ⟨p, hp, rfl⟩ := List.mem_map.mp hin
      have hp1 : p.1 = T := by
        rw [← matchedRecord_term du dp simf (master.map ruleEntry) p]
        exact hterm
      exact absurd (hp1 ▸ List.mem_map_of_mem Prod.fst hp) hmem
    · obtain ⟨q, hq, rfl⟩ := List.mem_map.mp hin
      exact ⟨rfl, rfl, rfl⟩
  case droppart =>
    rw [hout, ← hlen, List.drop_left, List.map_map]
    have h1 : (ValidationRecord.term ∘ missingRecord) = Prod.fst := rfl
    rw [h1]
    rw [show ((master.map ruleEntry).filter
        (fun q => !(extracted.any (fun p => decide (p.1 = q.1)))))
      = (master.filter (fun r => !(extracted.any (fun p => decide (p.1 = r.term))))).map ruleEntry from
      filter_map_comm ruleEntry _ master]
    rw [List.map_map]
    have h2 : (Prod.fst ∘ ruleEntry) = MasterRule.term := rfl
    rw [h2]
    rw [show (master.filter (fun r => !(extracted.any (fun p => decide (p.1 = r.term))))).map
        MasterRule.term
      = (master.map MasterRule.term).filter
          (fun t => !(extracted.any (fun p => decide (p.1 = t)))) from
      (filter_map_comm MasterRule.term
        (fun t => !(extracted.any (fun p => decide (p.1 = t)))) master).symm]
  case dropshape =>
    rw [hout, ← hlen, List.drop_left]
    intro r hr
    obtain ⟨q, hq, rfl⟩ := List.mem_map.mp hr
    exact ⟨rfl, rfl, rfl⟩

/-- Witness for C1: master terms `A` and `B`, extracted mapping containing
only `A`: exactly one record for `B`, and it is the synthesized Missing
record. -/
theorem c1_witness :
    ((validateTerms duNone dpNone simf0 [("A", "1")]
        [⟨"A", none, none⟩, ⟨"B", some "2", none⟩]).filter
        (fun r => decide (r.term = "B"))).length = 1 ∧
    (∀ r ∈ validateTerms duNone dpNone simf0 [("A", "1")]
        [⟨"A", none, none⟩, ⟨"B", some "2", none⟩], r.term = "B" →
        r.status = "❌" ∧ r.extractedValue = "Missing" ∧ r.notes = Note.termNotFoundDoc) :=
  have h := c1_one_record_per_master_term duNone dpNone simf0 [("A", "1")]
    [⟨"A", none, none⟩, ⟨"B", some "2", none⟩] "B" (by decide) (by decide) (by decide)
  ⟨h.1, h.2.2.1 (by decide)⟩

/-! ### C2: malformed ranges and the one-record-per-term guarantee -/
/-- Counterexample for C2: the master rule for `X` carries the malformed
range `≥abc`; the extracted value `hello` is typed as text, where the
range is never parsed, so the record comes back Valid with the no-rules
note — not Invalid or Unknown with a range-parse-error note as the claim
requires. -/
theorem c2_counterexample :
    validateTerms duNone dpNone simf0 [("X", "hello")] [⟨"X", none, some "≥abc"⟩]
      = [⟨"X", "hello", "✅", none, some "≥abc", Note.noTextRules⟩] := by
  decide

theorem validateNumber_reaches_range (v : String) (x : PyFloat)
    (expected : Option String) (rs : String)
    (hx : parseFloat (numericStrip v) = some x)
    (hreach : numericReachesRange x expected)
    (herr : numberRangeCheck x (some rs) expected = Except.error ()) :
    validateNumber v expected (some rs) = (false, Note.numericValidationError) := by
  unfold validateNumber validateNumberBody
  rcases hreach with h | ⟨ev, e, he, hpe, hcl⟩
  · subst h
    simp only [hx, herr]
  · subst he
    simp only [hx, hpe, hcl, Bool.false_eq_true, if_false, herr]

theorem numberRangeCheck_ge_err (x : PyFloat) (expected : Option String)
    (rs : String) (h1 : strStarts rs "≥" = true)
    (h2 : parseFloat (numericStrip (strDrop rs 1)) = none) :
    numberRangeCheck x (some rs) expected = Except.error () := by
  simp only [numberRangeCheck]
  rw [if_pos h1, h2]

theorem numberRangeCheck_le_err (x : PyFloat) (expected : Option String)
    (rs : String) (h0 : strStarts rs "≥" = false) (h1 : strStarts rs "≤" = true)
    (h2 : parseFloat (numericStrip (strDrop rs 1)) = none) :
    numberRangeCheck x (some rs) expected = Except.error () := by
  simp only [numberRangeCheck]
  rw [if_neg (by rw [h0]; decide), if_pos h1, h2]

theorem numberRangeCheck_interval_err (x : PyFloat) (expected : Option String)
    (rs p0 p1 : String)
    (h0 : strStarts rs "≥" = false) (h1 : strStarts rs "≤" = false)
    (h2 : (strContainsSub rs "–" || strContainsSub rs "-") = true)
    (h3 : splitChar rs (if strContainsSub rs "–" then '–' else '-') = [p0, p1])
    (h4 : parseFloat (numericStrip p0) = none ∨ parseFloat (numericStrip p1) = none) :
    numberRangeCheck x (some rs) expected = Except.error () := by
  simp only [numberRangeCheck]
  rw [if_neg (by rw [h0]; decide), if_neg (by rw [h1]; decide), if_pos h2]
  simp only [h3]
  rcases h4 with h4 | h4
  · simp only [h4]
  · rcases hp0 : parseFloat (numericStrip p0) with _ | lo
    · simp only [hp0]
    · simp only [hp0, h4]

theorem validateDate_reaches_range (dp : String → Option PyDate) (es : String)
    (expected allowed : Option String)
    (hreach : dateReachesRange dp es expected)
    (herr : dateRangeCheck dp (dp es) expected allowed = Except.error ()) :
    validateDate dp es expected allowed = (false, Note.dateValidationError) := by
  unfold validateDate validateDateBody
  rcases hreach with h | ⟨ev, he, heq⟩
  · subst h
    simp only [herr]
  · subst he
    simp only [heq, Bool.false_eq_true, if_false, herr]

theorem dateRangeCheck_ge_err (dp : String → Option PyDate) (x : Option PyDate)
    (expected : Option String) (rs : String)
    (h1 : strStarts rs "≥" = true) (h2 : dp (strDrop rs 1) = none) :
    dateRangeCheck dp x expected (some rs) = Except.error () := by
  simp only [dateRangeCheck]
  rw [if_pos h1]
  cases x <;> simp only [h2]

theorem dateRangeCheck_le_err (dp : String → Option PyDate) (x : Option PyDate)
    (expected : Option String) (rs : String)
    (h0 : strStarts rs "≥" = false) (h1 : strStarts rs "≤" = true)
    (h2 : dp (strDrop rs 1) = none) :
    dateRangeCheck dp x expected (some rs) = Except.error () := by
  simp only [dateRangeCheck]
  rw [if_neg (by rw [h0]; decide), if_pos h1]
  cases x <;> simp only [h2]

theorem dateRangeCheck_interval_err (dp : String → Option PyDate)
    (x : Option PyDate) (expected : Option String) (rs p0 p1 : String)
    (h0 : strStarts rs "≥" = false) (h1 : strStarts rs "≤" = false)
    (h2 : (strContainsSub rs "–" || strContainsSub rs "-") = true)
    (h3 : splitChar rs (if strContainsSub rs "–" then '–' else '-') = [p0, p1])
    (h4 : dp (pyStrip p0) = none ∨ dp (pyStrip p1) = none) :
    dateRangeCheck dp x expected (some rs) = Except.error () := by
  simp only [dateRangeCheck]
  rw [if_neg (by rw [h0]; decide), if_neg (by rw [h1]; decide), if_pos h2]
  simp only [h3]
  cases x with
  | none => rfl
  | some e =>
    rcases h4 with h4 | h4
    · simp only [h4]
    · rcases hp0 : dp (pyStrip p0) with _ | lo
      · simp only [hp0]
      · simp only [hp0, h4, ite_self]

/-- C2 as amended: when validation of a numeric- or date-typed value
reaches the allowed-range check (no expected-value comparison already
accepted the value) and the range string carries a recognized operator —
a leading ≥ or ≤, or a two-part dash-delimited interval — whose bound
fails to parse, the failure is surfaced as a numeric/date
validation-error note on an Invalid verdict rather than aborting the run;
and `validate_terms` always emits exactly one record per input term: the
output length is the number of extracted terms plus the number of
unmatched master terms, and the first block carries the extracted keys in
order.  (A malformed range paired with a text-typed value is not
surfaced — see the counterexample.) -/
theorem c2_malformed_bound_and_per_term (du dp : String → Option PyDate)
    (simf : String → String → Nat) (extracted : List (String × String))
    (master : List MasterRule)
    (hmas : (master.map MasterRule.term).Nodup) :
    (∀ v rs : String, ∀ x : PyFloat, ∀ expected : Option String,
      parseFloat (numericStrip v) = some x →
      numericReachesRange x expected →
      strStarts rs "≥" = true →
      parseFloat (numericStrip (strDrop rs 1)) = none →
      validateNumber v expected (some rs) = (false, Note.numericValidationError)) ∧
    (∀ v rs : String, ∀ x : PyFloat, ∀ expected : Option String,
      parseFloat (numericStrip v) = some x →
      numericReachesRange x expected →
      strStarts rs "≥" = false → strStarts rs "≤" = true →
      parseFloat (numericStrip (strDrop rs 1)) = none →
      validateNumber v expected (some rs) = (false, Note.numericValidationError)) ∧
    (∀ v rs p0 p1 : String, ∀ x : PyFloat, ∀ expected : Option String,
      parseFloat (numericStrip v) = some x →
      numericReachesRange x expected →
      strStarts rs "≥" = false → strStarts rs "≤" = false →
      (strContainsSub rs "–" || strContainsSub rs "-") = true →
      splitChar rs (if strContainsSub rs "–" then '–' else '-') = [p0, p1] →
      (parseFloat (numericStrip p0) = none ∨ parseFloat (numericStrip p1) = none) →
      validateNumber v expected (some rs) = (false, Note.numericValidationError)) ∧
    (∀ es rs : String, ∀ expected : Option String,
      dateReachesRange dp es expected →
      strStarts rs "≥" = true → dp (strDrop rs 1) = none →
      validateDate dp es expected (some rs) = (false, Note.dateValidationError)) ∧
    (∀ es rs : String, ∀ expected : Option String,
      dateReachesRange dp es expected →
      strStarts rs "≥" = false → strStarts rs "≤" = true → dp (strDrop rs 1) = none →
      validateDate dp es expected (some rs) = (false, Note.dateValidationError)) ∧
    (∀ es rs p0 p1 : String, ∀ expected : Option String,
      dateReachesRange dp es expected →
      strStarts rs "≥" = false → strStarts rs "≤" = false →
      (strContainsSub rs "–" || strContainsSub rs "-") = true →
      splitChar rs (if strContainsSub rs "–" then '–' else '-') = [p0, p1] →
      (dp (pyStrip p0) = none ∨ dp (pyStrip p1) = none) →
      validateDate dp es expected (some rs) = (false, Note.dateValidationError)) ∧
    (validateTerms du dp simf extracted master).length
      = extracted.length
        + ((master.map ruleEntry).filter
            (fun q => !(extracted.any (fun p => decide (p.1 = q.1))))).length ∧
    ((validateTerms du dp simf extracted master).take extracted.length).map
        ValidationRecord.term = extracted.map Prod.fst := by
  refine ⟨?ge, ?le, ?intv, ?dge, ?dle, ?dintv, ?len,
    validateTerms_take_terms du dp simf extracted master hmas⟩
  case ge =>
    intro v rs x expected hx hreach h1 h2
    exact validateNumber_reaches_range v x expected rs hx hreach
      (numberRangeCheck_ge_err x expected rs h1 h2)
  case le =>
    intro v rs x expected hx hreach h0 h1 h2
    exact validateNumber_reaches_range v x expected rs hx hreach
      (numberRangeCheck_le_err x expected rs h0 h1 h2)
  case intv =>
    intro v rs p0 p1 x expected hx hreach h0 h1 h2 h3 h4
    exact validateNumber_reaches_range v x expected rs hx hreach
      (numberRangeCheck_interval_err x expected rs p0 p1 h0 h1 h2 h3 h4)
  case dge =>
    intro es rs expected hreach h1 h2
    exact validateDate_reaches_range dp es expected (some rs) hreach
      (dateRangeCheck_ge_err dp (dp es) expected rs h1 h2)
  case dle =>
    intro es rs expected hreach h0 h1 h2
    exact validateDate_reaches_range dp es expected (some rs) hreach
      (dateRangeCheck_le_err dp (dp es) expected rs h0 h1 h2)
  case dintv =>
    intro es rs p0 p1 expected hreach h0 h1 h2 h3 h4
    exact validateDate_reaches_range dp es expected (some rs) hreach
      (dateRangeCheck_interval_err dp (dp es) expected rs p0 p1 h0 h1 h2 h3 h4)
  case len =>
    rw [validateTerms_unfold du dp simf extracted master hmas]
    rw [List.length_append, List.length_map, List.length_map]

/-- Witness for C2 at concrete inputs: unparseable bounds under every
recognized operator — numeric and date, ≥, ≤ and interval — yield the
error-note Invalid verdict, and the record counts add up. -/
theorem c2_witness :
    validateNumber "5" none (some "≥abc") = (false, Note.numericValidationError) ∧
    validateNumber "5" none (some "≤abc") = (false, Note.numericValidationError) ∧
    validateNumber "5" none (some "1-x") = (false, Note.numericValidationError) ∧
    validateDate dpNone "hello" none (some "≥abc") = (false, Note.dateValidationError) ∧
    validateDate dpNone "hello" none (some "≤abc") = (false, Note.dateValidationError) ∧
    validateDate dpNone "hello" none (some "a-b") = (false, Note.dateValidationError) ∧
    (validateTerms duNone dpNone simf0 [("X", "hello")]
        [⟨"X", none, some "≥abc"⟩]).length = 1 ∧
    ((validateTerms duNone dpNone simf0 [("X", "hello")]
        [⟨"X", none, some "≥abc"⟩]).take 1).map ValidationRecord.term = ["X"] :=
  have h := c2_malformed_bound_and_per_term duNone dpNone simf0 [("X", "hello")]
    [⟨"X", none, some "≥abc"⟩] (by decide)
  ⟨h.1 "5" "≥abc" ⟨5, 0, 0⟩ none (by decide) (Or.inl rfl) (by decide) (by decide),
   h.2.1 "5" "≤abc" ⟨5, 0, 0⟩ none (by decide) (Or.inl rfl) (by decide) (by decide)
     (by decide),
   h.2.2.1 "5" "1-x" "1" "x" ⟨5, 0, 0⟩ none (by decide) (Or.inl rfl) (by decide)
     (by decide) (by decide) (by decide) (Or.inr (by decide)),
   h.2.2.2.1 "hello" "≥abc" none (Or.inl rfl) (by decide) (by decide),
   h.2.2.2.2.1 "hello" "≤abc" none (Or.inl rfl) (by decide) (by decide) (by decide),
   h.2.2.2.2.2.1 "hello" "a-b" "a" "b" none (Or.inl rfl) (by decide) (by decide)
     (by decide) (by decide) (Or.inl (by decide)),
   h.2.2.2.2.2.2.1.trans (by decide), h.2.2.2.2.2.2.2⟩


/-- C4: on the scenario text and master rules, with the injected
capabilities behaving as the concrete libraries do on the strings this run
reaches (regex captures, no recognized entities, dateutil accepting
`01-01` and rejecting `5.5%`, dateparser mapping `01-01` to the current
period and `2025-01-01` to that date, fuzzywuzzy scores 44 and 81 on the
dash-split key), the pipeline produces exactly two records, both Valid.
Note the Maturity Date value validated is `01-01`: the line heuristic
splits the line at its first dash and overwrites the pattern capture. -/
theorem c4_two_valid_records (rm : String → String → List String)
    (nlp : String → List SpacyEnt) (du dp : String → Option PyDate)
    (simf : String → String → Nat)
    (hrm1 : rm "interest_rate" c4Text = ["5.5"])
    (hrm2 : rm "maturity_date" c4Text = ["2030-01-01"])
    (hrm3 : rm "principal" c4Text = [])
    (hrm4 : rm "counterparty" c4Text = [])
    (hrm5 : rm "governing_law" c4Text = [])
    (hrm6 : rm "loan_amount" c4Text = [])
    (hrm7 : rm "borrower" c4Text = [])
    (hrm8 : rm "lender" c4Text = [])
    (hnlp : nlp (strTake c4Text 100000) = [])
    (hdu1 : du "5.5%" = none)
    (hdu2 : du "01-01" = some ⟨2026, 1, 1⟩)
    (hdp1 : dp "01-01" = some ⟨2026, 1, 1⟩)
    (hdp2 : dp "2025-01-01" = some ⟨2025, 1, 1⟩)
    (hs1 : simf "maturity date: 2030" "interest rate" = 44)
    (hs2 : simf "maturity date: 2030" "maturity date" = 81) :
    (runPipeline rm nlp du dp simf c4Text c4Master).length = 2 ∧
    ∀ rec ∈ runPipeline rm nlp du dp simf c4Text c4Master, rec.status = "✅" := by
  have hpat : patternStage rm c4Text []
      = [("interest_rate", "5.5"), ("maturity_date", "2030-01-01")] := by
    simp only [patternStage, patternKeys, List.foldl_cons, List.foldl_nil]
    rw [hrm1, hrm2, hrm3, hrm4, hrm5, hrm6, hrm7, hrm8]
    decide
  have hent : entityStage [] dp c4Text
      [("interest_rate", "5.5"), ("maturity_date", "2030-01-01")]
      = [("interest_rate", "5.5"), ("maturity_date", "2030-01-01")] := rfl
  have hmf3 : matchFinancialTerm simf "maturity date: 2030" = some "maturity_date" := by
    unfold matchFinancialTerm
    rw [if_neg (by decide)]
    simp only [financialTerms]
    rw [List.find?_cons_of_neg _ (by simp only [hs1]; decide)]
    rw [List.find?_cons_of_pos _ (by simp only [hs2]; decide)]
    decide
  have hmf1 : matchFinancialTerm simf "interest rate" = some "interest_rate" := by
    unfold matchFinancialTerm
    rw [if_pos (by decide)]
    decide
  have hmf2 : matchFinancialTerm simf "maturity date" = some "maturity_date" := by
    unfold matchFinancialTerm
    rw [if_pos (by decide)]
    decide
  have hs11 : sepWrite simf "Interest Rate: 5.5%" ':' = some ("interest_rate", "5.5%") := by
    simp only [sepWrite]
    rw [if_pos (by decide), if_neg (by decide)]
    rw [show pyLower (pyStrip (splitOnce "Interest Rate: 5.5%" ':').1)
        = "interest rate" from by decide]
    rw [hmf1]
    decide
  have hs12 : sepWrite simf "Interest Rate: 5.5%" '-' = none := by
    simp only [sepWrite]
    rw [if_neg (by decide)]
  have hs13 : sepWrite simf "Interest Rate: 5.5%" '=' = none := by
    simp only [sepWrite]
    rw [if_neg (by decide)]
  have hs21 : sepWrite simf "Maturity Date: 2030-01-01" ':'
      = some ("maturity_date", "2030-01-01") := by
    simp only [sepWrite]
    rw [if_pos (by decide), if_neg (by decide)]
    rw [show pyLower (pyStrip (splitOnce "Maturity Date: 2030-01-01" ':').1)
        = "maturity date" from by decide]
    rw [hmf2]
    decide
  have hs22 : sepWrite simf "Maturity Date: 2030-01-01" '-'
      = some ("maturity_date", "01-01") := by
    simp only [sepWrite]
    rw [if_pos (by decide)]
    rw [if_neg (by decide)]
    rw [show pyLower (pyStrip (splitOnce "Maturity Date: 2030-01-01" '-').1)
        = "maturity date: 2030" from by decide]
    rw [hmf3]
    decide
  have hs23 : sepWrite simf "Maturity Date: 2030-01-01" '=' = none := by
    simp only [sepWrite]
    rw [if_neg (by decide)]
  have hlw : lineWrites simf c4Text
      = [("interest_rate", "5.5%"), ("maturity_date", "2030-01-01"),
         ("maturity_date", "01-01")] := by
    unfold lineWrites
    rw [show splitChar c4Text '\n'
        = ["Interest Rate: 5.5%", "Maturity Date: 2030-01-01"] from by decide]
    simp only [List.map_cons, List.map_nil, List.filterMap_cons, List.filterMap_nil]
    rw [hs11, hs12, hs13, hs21, hs22, hs23]
    decide
  have hstruct : structureData rm nlp dp simf c4Text
      = [("interest_rate", "5.5%"), ("maturity_date", "01-01")] := by
    unfold structureData
    rw [hnlp, hpat, hent]
    unfold lineStage
    rw [hlw]
    decide
  have hc1 : canonOf simf c4Master "interest_rate" = "Interest Rate" := by
    simp only [canonOf]
    rw [if_pos (by decide)]
    decide
  have hc2 : canonOf simf c4Master "maturity_date" = "Maturity Date" := by
    simp only [canonOf]
    rw [if_pos (by decide)]
    decide
  have hnorm : normalizeTerms simf
      [("interest_rate", "5.5%"), ("maturity_date", "01-01")] c4Master
      = [("Interest Rate", "5.5%"), ("Maturity Date", "01-01")] := by
    simp only [normalizeTerms, List.foldl_cons, List.foldl_nil]
    rw [hc1, hc2]
    decide
  have hty1 : determineValueType du "5.5%" = "number" := by
    unfold determineValueType
    rw [hdu1]
    decide
  have hty2 : determineValueType du "01-01" = "date" := by
    unfold determineValueType
    rw [hdu2]
    rfl
  have hv1 : validateValue du dp simf "5.5%" (some "5.5") (some "4.0-6.0")
      = (true, Note.numberMatchesExpected) := by
    simp only [validateValue]
    rw [if_neg (by decide)]
    rw [show pyStrip "5.5%" = "5.5%" from by decide]
    rw [hty1]
    rw [if_neg (by decide), if_pos rfl]
    decide
  have hv2 : validateValue du dp simf "01-01" none (some "≥2025-01-01")
      = (true, Note.dateAfterMin ⟨2025, 1, 1⟩) := by
    simp only [validateValue]
    rw [if_neg (by decide)]
    rw [show pyStrip "01-01" = "01-01" from by decide]
    rw [hty2]
    rw [if_pos rfl]
    simp only [validateDate, validateDateBody, dateRangeCheck]
    rw [hdp1]
    rw [show strDrop "≥2025-01-01" 1 = "2025-01-01" from by decide]
    rw [hdp2]
    rw [if_pos (show strStarts "≥2025-01-01" "≥" = true from by decide)]
    decide
  have hrec1 : matchedRecord du dp simf (buildMasterDict c4Master)
      ("Interest Rate", "5.5%")
      = ⟨"Interest Rate", "5.5%", "✅", some "5.5", some "4.0-6.0",
         Note.numberMatchesExpected⟩ := by
    unfold matchedRecord
    rw [show dictGet (buildMasterDict c4Master) ("Interest Rate", "5.5%").1
        = some (some "5.5", some "4.0-6.0") from by decide]
    simp only [hv1]
    decide
  have hrec2 : matchedRecord du dp simf (buildMasterDict c4Master)
      ("Maturity Date", "01-01")
      = ⟨"Maturity Date", "01-01", "✅", none, some "≥2025-01-01",
         Note.dateAfterMin ⟨2025, 1, 1⟩⟩ := by
    unfold matchedRecord
    rw [show dictGet (buildMasterDict c4Master) ("Maturity Date", "01-01").1
        = some (none, some "≥2025-01-01") from by decide]
    simp only [hv2]
    decide
  have hval : validateTerms du dp simf
      [("Interest Rate", "5.5%"), ("Maturity Date", "01-01")] c4Master
      = [⟨"Interest Rate", "5.5%", "✅", some "5.5", some "4.0-6.0",
          Note.numberMatchesExpected⟩,
         ⟨"Maturity Date", "01-01", "✅", none, some "≥2025-01-01",
          Note.dateAfterMin ⟨2025, 1, 1⟩⟩] := by
    simp only [validateTerms, List.map_cons, List.map_nil]
    rw [hrec1, hrec2]
    rw [show (buildMasterDict c4Master).filter
        (fun q => !([("Interest Rate", "5.5%"), ("Maturity Date", "01-01")].any
          (fun p => decide (p.1 = q.1)))) = [] from by decide]
    decide
  have hpipe : runPipeline rm nlp du dp simf c4Text c4Master
      = [⟨"Interest Rate", "5.5%", "✅", some "5.5", some "4.0-6.0",
          Note.numberMatchesExpected⟩,
         ⟨"Maturity Date", "01-01", "✅", none, some "≥2025-01-01",
          Note.dateAfterMin ⟨2025, 1, 1⟩⟩] := by
    unfold runPipeline
    rw [hstruct, hnorm, hval]
  rw [hpipe]
  refine ⟨rfl, ?_⟩
  intro rec h
  simp only [List.mem_cons, List.not_mem_nil, or_false] at h
  rcases h with rfl | rfl <;> rfl

/-- Witness for C4: concrete capability functions realizing the hypotheses;
the pipeline yields exactly two Valid records. -/
theorem c4_witness :
    (runPipeline c4Rm nlpNone c4Du c4Dp c4Sim c4Text c4Master).length = 2 ∧
    ∀ rec ∈ runPipeline c4Rm nlpNone c4Du c4Dp c4Sim c4Text c4Master,
      rec.status = "✅" :=
  c4_two_valid_records c4Rm nlpNone c4Du c4Dp c4Sim
    (by decide) (by decide) (by decide) (by decide) (by decide) (by decide)
    (by decide) (by decide) (by decide) (by decide) (by decide) (by decide)
    (by decide) (by decide) (by decide)
